import Mathlib

/-!
# Verification of the Swiss German Lesson Lab acquisition core

Shallow embedding of `src/main.py` (sentence-batch generation and caching,
lesson assembly, TTS client handle, audio acquisition pipeline, placeholder
tone synthesizer) together with proofs of the specification claims.

External nondeterminism (the language-model response, the remote TTS call,
temporary file naming, I/O faults) is passed in explicitly as parameters, so
every definition is a function of the request plus an environment.
-/

namespace SwissGerman

/-! ## Python string primitives

`str.strip()` with no argument removes leading and trailing whitespace.  We
model the ASCII whitespace characters (the claims only depend on emptiness
after stripping, and every concrete string involved is ASCII). -/

def isPySpace (c : Char) : Bool :=
  c = ' ' || c = '\t' || c = '\n' || c = '\r' || c = '\x0b' || c = '\x0c'

def stripChars (l : List Char) : List Char :=
  ((l.dropWhile isPySpace).reverse.dropWhile isPySpace).reverse

/-- Python `s.strip()`. -/
def pyStrip (s : String) : String :=
  String.mk (stripChars s.data)

/-- Decimal digit characters of a natural number, most significant first,
accumulated right to left; structural recursion on the fuel (`fuel ≥ n`
suffices since the value shrinks ten-fold per step). -/
def natDigitsGo : Nat → Nat → List Char → List Char
  | 0, _, acc => acc
  | fuel + 1, n, acc =>
      if n < 10 then Nat.digitChar n :: acc
      else natDigitsGo fuel (n / 10) (Nat.digitChar (n % 10) :: acc)

/-- Decimal digits of a natural number; `natDigits 0 = ['0']`, mirroring
Python `str(0)`. -/
def natDigits (n : Nat) : List Char :=
  natDigitsGo (n + 1) n []

/-- Python `str` of a nonnegative integer. -/
def natDec (n : Nat) : String :=
  String.mk (natDigits n)

/-- Python `str` of an `int`: decimal digits, with a leading `-` sign when
negative. -/
def intDec (n : Int) : String :=
  if n < 0 then "-" ++ natDec (-n).toNat else natDec n.toNat

/-! ## JSON values as decoded by `json.loads` -/

/-- A JSON value after `json.loads`: numbers are modelled as integers (the
claims only exercise integral numeric fields). -/
inductive JVal where
  | jnull : JVal
  | jbool : Bool → JVal
  | jnum : Int → JVal
  | jstr : String → JVal
  | jarr : List JVal → JVal
  | jobj : List (String × JVal) → JVal

/-- Python `repr` of a decoded JSON value (string quoting simplified to bare
single quotes; no claim depends on the rendering of containers or quoted
strings, only on the rendering of `None`, booleans and numbers). -/
def pyRepr : JVal → String
  | .jnull => "None"
  | .jbool true => "True"
  | .jbool false => "False"
  | .jnum n => intDec n
  | .jstr s => "\x27" ++ s ++ "\x27"
  | .jarr xs =>
      "[" ++ String.intercalate ", " (xs.attach.map (fun x => pyRepr x.1)) ++ "]"
  | .jobj fs =>
      "\x7b" ++ String.intercalate ", "
        (fs.attach.map (fun f => "\x27" ++ f.1.1 ++ "\x27: " ++ pyRepr f.1.2)) ++ "\x7d"
decreasing_by
  all_goals simp_wf
  · have h := List.sizeOf_lt_of_mem x.2
    omega
  · obtain ⟨⟨a, b⟩, hm⟩ := f
    have h := List.sizeOf_lt_of_mem hm
    simp at h ⊢
    omega

/-- Python `str` of a decoded JSON value: identity on strings, `repr`
otherwise (`str(None) = "None"`, `str(42) = "42"`, `str(True) = "True"`;
containers render via their `repr`). -/
def pyStr : JVal → String
  | .jnull => "None"
  | .jbool true => "True"
  | .jbool false => "False"
  | .jnum n => intDec n
  | .jstr s => s
  | .jarr xs => pyRepr (.jarr xs)
  | .jobj fs => pyRepr (.jobj fs)

/-- `entry.get(k, "")` on a decoded JSON object: the value stored under `k`,
or the Python string `""` when the key is absent. -/
def getField (fs : List (String × JVal)) (k : String) : JVal :=
  match fs.find? (fun p => p.1 = k) with
  | some p => p.2
  | none => .jstr ""

/-! ## Sentence batch normalization (`_generate_sentence_batch`, lines 142-163) -/

structure SentencePair where
  swiss_sentence : String
  reference_translation : String
deriving Repr, DecidableEq

/-- The normalization loop of `_generate_sentence_batch`: each entry that is a
JSON object contributes `str(entry.get(...)).strip()` for both fields, and is
kept exactly when both stripped strings are non-empty (Python truthiness). -/
def normalizeEntries : List JVal → List SentencePair
  | [] => []
  | .jobj fs :: rest =>
      let ss := pyStrip (pyStr (getField fs "swiss_sentence"))
      let rt := pyStrip (pyStr (getField fs "reference_translation"))
      if ss ≠ "" ∧ rt ≠ "" then ⟨ss, rt⟩ :: normalizeEntries rest
      else normalizeEntries rest
  | _ :: rest => normalizeEntries rest

/-- Outcome of one upstream language-model interaction, as observed by
`_generate_sentence_batch`: either `client.chat.completions.create` raises, or
it returns and `json.loads(content or "[]")` either raises (`.error`) or
produces a decoded value. -/
inductive UpstreamOutcome where
  | raises : UpstreamOutcome
  | returns : Except Unit JVal → UpstreamOutcome

/-- Body of `_generate_sentence_batch` (lines 128-163).  The `create` call at
line 132 sits *outside* the `try` block, so an exception there propagates
(`.error ()`).  A `json.loads` failure is caught and falls through to
`return []`; a non-list payload or a fully-discarded list also yields `[]`
(when `normalized` is empty the function falls through to `return []`, which
is the same value). -/
def genBatchBody : UpstreamOutcome → Except Unit (List SentencePair)
  | .raises => .error ()
  | .returns (.error _) => .ok []
  | .returns (.ok payload) =>
      match payload with
      | .jarr entries => .ok (normalizeEntries entries)
      | _ => .ok []

/-! ## `functools.lru_cache` (used at `maxsize=24` on `_generate_sentence_batch`
and `maxsize=1` on `get_tts_client`)

The cache is a recency-ordered association list, most recently used first.
`lru_cache` never stores duplicate keys, so removing a key on a hit is
modelled with `filter`.  On a hit the entry moves to the front; on a miss the
body runs — if it raises, nothing is cached and the exception propagates; if
it returns, the value is inserted at the front and the least-recently-used
entry is evicted when the capacity is exceeded. -/

variable {κ ν ε : Type}

/-- Stored value for `k`, if present. -/
def lruFind [DecidableEq κ] (c : List (κ × ν)) (k : κ) : Option ν :=
  (c.find? (fun p => p.1 = k)).map (fun p => p.2)

/-- One call through an `lru_cache`-wrapped function: result, updated cache,
and whether the wrapped body was invoked. -/
def lruCall [DecidableEq κ] (cap : Nat) (body : κ → Except ε ν)
    (c : List (κ × ν)) (k : κ) : Except ε ν × List (κ × ν) × Bool :=
  match lruFind c k with
  | some v => (.ok v, (k, v) :: c.filter (fun p => ¬ p.1 = k), false)
  | none =>
      match body k with
      | .error e => (.error e, c, true)
      | .ok v => (.ok v, ((k, v) :: c).take cap, true)

/-- A `(topic, book_text)` cache key — exact value equality, as in Python. -/
abbrev GenKey := String × Option String

abbrev BatchCache := List (GenKey × List SentencePair)

/-- One call of the cached `_generate_sentence_batch` (decorated with
`@lru_cache(maxsize=24)`), with this call's upstream outcome supplied as a
parameter. -/
def getBatchCall (c : BatchCache) (k : GenKey) (o : UpstreamOutcome) :
    Except Unit (List SentencePair) × BatchCache × Bool :=
  lruCall 24 (fun _ => genBatchBody o) c k

/-! ## Lesson assembly (`build_sentence`, `generate_exercises`) -/

def dialect_choices : List String :=
  ["Aarau", "Bern", "Basel", "Graubünden", "Luzern", "St. Gallen", "Valais", "Zürich"]

/-- `request.dialect if request.dialect in dialect_choices else "Zürich"`. -/
def normalizeDialect (d : String) : String :=
  if d ∈ dialect_choices then d else "Zürich"

/-- The deterministic placeholder sentence of `build_sentence` (lines 172-176). -/
def placeholderSentence (topic : String) : String :=
  let topic_piece := if pyStrip topic ≠ "" then pyStrip topic else "dini Idee"
  s!"Mir bruuche meh Infos zum Thema {topic_piece}, drum probier s Sätzli nomol."

def fallbackTranslation : String :=
  "Need more topic details to generate a sentence."

/-- `build_sentence` (lines 166-176), given the result of the (cached)
`_generate_sentence_batch` call: an exception from the batch call propagates;
otherwise the entry at `idx` is used when present, and the placeholder pair
otherwise. -/
def build_sentence (topic : String) (batchResult : Except Unit (List SentencePair))
    (idx : Nat) : Except Unit (String × String) :=
  match batchResult with
  | .error e => .error e
  | .ok batch =>
      match batch[idx]? with
      | some entry => .ok (entry.swiss_sentence, entry.reference_translation)
      | none => .ok (placeholderSentence topic, fallbackTranslation)

structure Exercise where
  id : Nat
  swiss_sentence : String
  translation_hint : String
  reference_translation : String
deriving Repr, DecidableEq

def translationHint (dialect : String) : String :=
  s!"Translate this {dialect} dialect sentence into English."

/-- `generate_exercises` (lines 179-191): six `build_sentence` calls, ids
`idx + 1`.  All six calls share the cached batch result, so it is passed in
once; an exception from the first call aborts the loop and propagates. -/
def generate_exercises (topic dialect : String)
    (batchResult : Except Unit (List SentencePair)) : Except Unit (List Exercise) :=
  (List.range 6).mapM (fun idx => do
    let (ss, rt) ← build_sentence topic batchResult idx
    pure { id := idx + 1
           swiss_sentence := ss
           translation_hint := translationHint dialect
           reference_translation := rt })

/-! ## TTS client handle (`get_tts_client`, lines 48-72) -/

/-- Result of one `Client(base_url, ssl_verify=...)` construction attempt. -/
inductive AttemptResult where
  | ok : Nat → AttemptResult
  | fail : AttemptResult
deriving Repr, DecidableEq

/-- The construction attempts the environment would answer on one call:
`withVerify` is the outcome of `Client(base_url, ssl_verify=True)`,
`withoutVerify` of `Client(base_url, ssl_verify=False)`. -/
structure TTSAttempts where
  withVerify : AttemptResult
  withoutVerify : AttemptResult
deriving Repr, DecidableEq

/-- Body of `get_tts_client`: first attempt uses the configured policy
(`verifySsl`); on an exception, if verification was enabled a single retry
with verification disabled follows (its failure raises `RuntimeError`), and
otherwise the exception is re-raised. -/
def getTtsBody (verifySsl : Bool) (a : TTSAttempts) : Except Unit Nat :=
  match (if verifySsl then a.withVerify else a.withoutVerify) with
  | .ok h => .ok h
  | .fail =>
      if verifySsl then
        match a.withoutVerify with
        | .ok h => .ok h
        | .fail => .error ()
      else .error ()

/-- One call of the cached `get_tts_client` (decorated with
`@lru_cache(maxsize=1)`, a nullary function, so the cache is just an optional
memoized handle): result, updated memo, and whether construction ran. -/
def getTtsClient (verifySsl : Bool) (a : TTSAttempts) (memo : Option Nat) :
    Except Unit Nat × Option Nat × Bool :=
  match memo with
  | some h => (.ok h, some h, false)
  | none =>
      match getTtsBody verifySsl a with
      | .error e => (.error e, none, true)
      | .ok h => (.ok h, some h, true)

/-! ## IEEE-754 binary64 rounding

`synthesize_placeholder_audio` computes `min(3.5, 0.5 + len(text)/25)` and
multiplies by `22050` in Python float (binary64) arithmetic, then truncates
with `int(...)`.  We model the correctly-rounded binary64 result of each
operation exactly, as a rational: 53-bit significand, round half to even.
Every value in the pipeline is far inside the normal range. -/

def pow2 (e : Int) : ℚ :=
  if 0 ≤ e then (2 : ℚ) ^ e.toNat else 1 / (2 : ℚ) ^ (-e).toNat

/-- `⌊log₂ q⌋` for positive `q`. -/
def floorLog2 (q : ℚ) : Int :=
  Int.log 2 q

/-- Round a rational to the nearest integer, ties to even. -/
def roundHalfEven (q : ℚ) : Int :=
  let f := ⌊q⌋
  let frac := q - f
  if 1 / 2 < frac then f + 1
  else if frac < 1 / 2 then f
  else if f % 2 = 0 then f else f + 1

/-- Nearest binary64 to a positive rational (normal range). -/
def flPos (q : ℚ) : ℚ :=
  let e : Int := floorLog2 q - 52
  (roundHalfEven (q / pow2 e) : ℚ) * pow2 e

/-- Nearest binary64 to a rational (normal range or zero). -/
def fl (q : ℚ) : ℚ :=
  if q = 0 then 0 else if 0 < q then flPos q else -flPos (-q)

/-! ## Placeholder tone synthesizer (`synthesize_placeholder_audio`) -/

/-- `min(3.5, 0.5 + len(text) / 25)` as evaluated in Python floats:
`len(text) / 25` and the sum are each correctly rounded; `3.5` and `0.5` are
exactly representable and `min` compares exactly. -/
def duration_seconds (n : Nat) : ℚ :=
  min (7 / 2) (fl (1 / 2 + fl ((n : ℚ) / 25)))

/-- `int(duration_seconds * sample_rate)` as evaluated in Python: the product
is correctly rounded to binary64 and `int` truncates (the value is
nonnegative, so truncation is the floor). -/
def total_frames (n : Nat) : Nat :=
  (⌊fl (duration_seconds n * 22050)⌋).toNat

/-- `value` in `width` little-endian bytes. -/
def leBytes : Nat → Nat → List Nat
  | 0, _ => []
  | w + 1, value => value % 256 :: leBytes w (value / 256)

/-- The 44-byte header the `wave` module writes for a mono 16-bit 22050 Hz PCM
file with `nFrames` frames: RIFF/WAVE chunk, `fmt ` chunk (PCM, 1 channel,
rate 22050, byte rate 44100, block align 2, 16 bits), `data` chunk header. -/
def wavHeader (nFrames : Nat) : List Nat :=
  [82, 73, 70, 70] ++ leBytes 4 (36 + 2 * nFrames) ++
  [87, 65, 86, 69] ++ [102, 109, 116, 32] ++ leBytes 4 16 ++
  leBytes 2 1 ++ leBytes 2 1 ++ leBytes 4 22050 ++ leBytes 4 44100 ++
  leBytes 2 2 ++ leBytes 2 16 ++
  [100, 97, 116, 97] ++ leBytes 4 (2 * nFrames)

/-- Bytes of the synthesized WAV file for a text of length `n`: the header
followed by two bytes per frame.  The per-frame sample bytes are abstracted
to zeros here — no pipeline claim depends on their values, and the exact
sample values are modelled separately (`placeholderQuantized`). -/
def synthContent (n : Nat) : List Nat :=
  wavHeader (total_frames n) ++ List.replicate (2 * total_frames n) 0

/-! ## Audio acquisition (`encode_audio_file`, `fetch_audio`) -/

/-- The filesystem visible to one audio request: paths with byte contents. -/
abbrev FS := List (String × List Nat)

def fsRead (fs : FS) (p : String) : Option (List Nat) :=
  (fs.find? (fun q => q.1 = p)).map (fun q => q.2)

def fsExists (fs : FS) (p : String) : Bool :=
  (fsRead fs p).isSome

def fsWrite (fs : FS) (p : String) (bytes : List Nat) : FS :=
  (p, bytes) :: fs.filter (fun q => ¬ q.1 = p)

def fsUnlink (fs : FS) (p : String) : FS :=
  fs.filter (fun q => ¬ q.1 = p)

/-- The characters after the last `/`, accumulating the current component. -/
def lastComponent : List Char → List Char → List Char
  | [], cur => cur
  | c :: rest, cur =>
      if c = '/' then lastComponent rest [] else lastComponent rest (cur ++ [c])

/-- `Path(p).name`: the final path component. -/
def baseName (p : String) : String :=
  String.mk (lastComponent p.data [])

/-- The characters after the last `.`, or `none` when there is no dot. -/
def afterLastDot : List Char → Option (List Char) → Option (List Char)
  | [], acc => acc
  | c :: rest, acc =>
      if c = '.' then afterLastDot rest (some [])
      else afterLastDot rest (acc.map (fun a => a ++ [c]))

/-- The extension (final dot suffix of the basename), as `mimetypes` keys it. -/
def extOf (p : String) : String :=
  match afterLastDot (baseName p).data none with
  | some e => String.mk ('.' :: e)
  | none => ""

/-- `mimetypes.guess_type` restricted to the audio types exercised here
(`.wav ↦ audio/x-wav`, `.mp3 ↦ audio/mpeg` in the standard table); any other
extension is undetermined. -/
def guessMime (p : String) : Option String :=
  if extOf p = ".wav" then some "audio/x-wav"
  else if extOf p = ".mp3" then some "audio/mpeg"
  else none

def b64Table : List Char :=
  "ABCDEFGHIJKLMNOPQRSTUVWXYZabcdefghijklmnopqrstuvwxyz0123456789+/".data

def b64Char (i : Nat) : Char :=
  b64Table.getD i 'A'

/-- Standard base64 of a byte list (`base64.b64encode`). -/
def b64encodeL : List Nat → List Char
  | b1 :: b2 :: b3 :: rest =>
      b64Char (b1 / 4) :: b64Char (b1 % 4 * 16 + b2 / 16) ::
      b64Char (b2 % 16 * 4 + b3 / 64) :: b64Char (b3 % 64) :: b64encodeL rest
  | [b1, b2] => [b64Char (b1 / 4), b64Char (b1 % 4 * 16 + b2 / 16), b64Char (b2 % 16 * 4), '=']
  | [b1] => [b64Char (b1 / 4), b64Char (b1 % 4 * 16), '=', '=']
  | [] => []

def b64encode (bytes : List Nat) : String :=
  String.mk (b64encodeL bytes)

structure AudioResponse where
  audio_base64 : String
  content_type : String
deriving Repr, DecidableEq

/-- `encode_audio_file` (lines 205-210): guess the MIME type from the path
(default `audio/wav`), read the file and base64-encode it.  `read_bytes` is
I/O and can raise (missing file, or an I/O fault signalled by `ioFault`);
that exception propagates to the caller. -/
def encode_audio_file (ioFault : Bool) (fs : FS) (p : String) :
    Except Unit AudioResponse :=
  if ioFault then .error ()
  else
    match fsRead fs p with
    | none => .error ()
    | some bytes => .ok ⟨b64encode bytes, (guessMime p).getD "audio/wav"⟩

/-- `s.startswith(pre)`. -/
def strStartsWith (s pre : String) : Bool :=
  pre.data.isPrefixOf s.data

/-- Shape of the value returned by `tts_client.predict`. -/
inductive RVal where
  | rstr : String → RVal
  | rlist : List RVal → RVal
  | rnone : RVal
  | rother : RVal

/-- Lines 260-265: a non-empty list or tuple whose first element is a string,
or a bare string, yields a candidate path; every other shape yields none. -/
def interpretResult : Except Unit RVal → Option String
  | .error _ => none
  | .ok (.rlist (.rstr s :: _)) => some s
  | .ok (.rlist _) => none
  | .ok (.rstr s) => some s
  | .ok _ => none

/-- The environment one `fetch_audio` request observes: whether
`get_tts_client()` returns a handle, the outcome of `predict` for the given
arguments, the fresh name `NamedTemporaryFile` would pick, and whether
`read_bytes` suffers an I/O fault. -/
structure AudioEnv where
  clientAvail : Bool
  predict : String → String → Except Unit RVal
  tmpPath : String
  readFault : Bool

/-- The audio path resolved from the remote call (lines 249-265), before the
existence check: `none` when the handle is unavailable, `predict` raised, or
the result shape is unusable. -/
def remoteCandidate (env : AudioEnv) (text dialect : String) : Option String :=
  if env.clientAvail then interpretResult (env.predict text (normalizeDialect dialect))
  else none

/-- The audio source `fetch_audio` encodes, with the filesystem after the
optional synthesis step: the remote candidate if it exists on disk, and the
freshly synthesized placeholder tone otherwise (lines 267-268). -/
def resolveAudio (env : AudioEnv) (text dialect : String) (fs : FS) : String × FS :=
  match remoteCandidate env text dialect with
  | some p =>
      if fsExists fs p then (p, fs)
      else (env.tmpPath, fsWrite fs env.tmpPath (synthContent text.length))
  | none => (env.tmpPath, fsWrite fs env.tmpPath (synthContent text.length))

/-- `fetch_audio` (lines 240-276).  `encode_audio_file` runs before the
deletion block, so an exception there propagates with no cleanup; on success
the path is unlinked only when it still exists and its basename starts with
`"tmp"` (the `NamedTemporaryFile` prefix).  Returns the response (or the
propagated exception) and the final filesystem. -/
def fetch_audio (env : AudioEnv) (text dialect : String) (fs : FS) :
    Except Unit AudioResponse × FS :=
  let resolved := resolveAudio env text dialect fs
  let audioPath := resolved.1
  let fs1 := resolved.2
  match encode_audio_file env.readFault fs1 audioPath with
  | .error e => (.error e, fs1)
  | .ok response =>
      let fs2 :=
        if fsExists fs1 audioPath && strStartsWith (baseName audioPath) "tmp" then
          fsUnlink fs1 audioPath
        else fs1
      (.ok response, fs2)

/-! ## Exact per-sample model (lines 228-235)

The quantized samples themselves, over the reals: the claims about them are
bounds, which hold for the ideal values and are insensitive to the tiny
binary64 rounding of the source (any float of magnitude below `9830.2`
truncates to an integer of magnitude at most `9830`). -/

/-- `int(x)`: truncation toward zero. -/
noncomputable def pyTrunc (x : ℝ) : Int :=
  if 0 ≤ x then ⌊x⌋ else ⌈x⌉

/-- `freq = 440.0 + 60.0 * sin(2π·i / 22050)`. -/
noncomputable def placeholderFreq (i : Nat) : ℝ :=
  440 + 60 * Real.sin (2 * Real.pi * i / 22050)

/-- `sample = 0.3 * sin(2π·freq·i / 22050)`. -/
noncomputable def placeholderSample (i : Nat) : ℝ :=
  0.3 * Real.sin (2 * Real.pi * placeholderFreq i * i / 22050)

/-- `int(sample * 32767)`, the value handed to `to_bytes(2, "little",
signed=True)`. -/
noncomputable def placeholderQuantized (i : Nat) : Int :=
  pyTrunc (placeholderSample i * 32767)

/-! ## Auxiliary definitions used by the claim statements -/

def digitChars : List Char := "0123456789".data

/-- A JSON value that is not a string and not a container. -/
def nonStringScalar (v : JVal) : Prop :=
  v = .jnull ∨ (∃ b, v = .jbool b) ∨ (∃ n, v = .jnum n)

/-- The pair a single parsed entry contributes, if any. -/
def entryPair? (e : JVal) : Option SentencePair :=
  match e with
  | .jobj fs =>
      let ss := pyStrip (pyStr (getField fs "swiss_sentence"))
      let rt := pyStrip (pyStr (getField fs "reference_translation"))
      if ss ≠ "" ∧ rt ≠ "" then some ⟨ss, rt⟩ else none
  | _ => none

/-- The sample count the specification claims: `round(duration * 22050)` with
`duration = min(3.5, 0.5 + n/25)` evaluated exactly.  (Spec-side definition,
stated from the spec formula, for comparison with the source-side
`total_frames`.) -/
def claimedSampleCount (n : Nat) : Int :=
  round (min ((7 : ℚ) / 2) (1 / 2 + (n : ℚ) / 25) * 22050)

/-- The exact product `min(3.5, 0.5 + n/25) * 22050`, which is an integer. -/
def exactCount (n : Nat) : Nat :=
  if n ≤ 75 then 11025 + 882 * n else 77175

/-- The per-index exercise `generate_exercises` constructs when the batch call
returned `batch`. -/
def exerciseAt (topic dialect : String) (batch : List SentencePair) (idx : Nat) :
    Exercise :=
  match batch[idx]? with
  | some p => ⟨idx + 1, p.swiss_sentence, translationHint dialect, p.reference_translation⟩
  | none => ⟨idx + 1, placeholderSentence topic, translationHint dialect, fallbackTranslation⟩

/-- A full 24-entry cache with 24 distinct keys, for concrete eviction runs. -/
def fullCache24 : BatchCache :=
  (List.range 24).map (fun i => ((natDec i, none), []))

/-- Environment for a request where the TTS handle is unavailable and reading
the synthesized file fails with an I/O error. -/
def envSynthFault : AudioEnv :=
  ⟨false, fun _ _ => .error (), "/tmp/tmpc1a2b3.wav", true⟩

/-- Environment for a request where the remote TTS call succeeds and returns a
path to an existing file. -/
def envRemoteOk : AudioEnv :=
  ⟨true, fun _ _ => .ok (.rstr "/srv/tts/out.wav"), "/tmp/tmpd4e5f6.wav", false⟩

/-- A filesystem on which the remote-returned file exists but is empty. -/
def fsEmptyRemote : FS := [("/srv/tts/out.wav", [])]

/-- Environment where the TTS handle is unavailable and reading succeeds. -/
def envSynthNoFault : AudioEnv :=
  ⟨false, fun _ _ => .error (), "/tmp/tmpj1k2l3.wav", false⟩

/-! ## Lemmas: stripping and decimal rendering -/

theorem dropWhile_eq_self_of (p : Char → Bool) (l : List Char)
    (h : ∀ c ∈ l, p c = false) : l.dropWhile p = l := by
  induction l with
  | nil => rfl
  | cons a rest ih =>
      rw [List.dropWhile_cons, if_neg (by simp [h a (by simp)])]

theorem head?_dropWhile (p : Char → Bool) :
    ∀ (l : List Char) {c : Char}, (l.dropWhile p).head? = some c → p c = false := by
  intro l
  induction l with
  | nil => intro c h; simp [List.dropWhile] at h
  | cons a rest ih =>
      intro c h
      rw [List.dropWhile_cons] at h
      by_cases hp : p a
      · exact ih (by simpa [hp] using h)
      · simp [hp] at h
        subst h
        simpa using hp

theorem getLast?_dropWhile (p : Char → Bool) :
    ∀ l : List Char, l.dropWhile p = [] ∨ (l.dropWhile p).getLast? = l.getLast? := by
  intro l
  induction l with
  | nil => exact .inl rfl
  | cons a rest ih =>
      rw [List.dropWhile_cons]
      by_cases hp : p a
      · simp only [if_pos hp]
        rcases ih with h | h
        · exact .inl h
        · cases rest with
          | nil => exact .inl (by simp)
          | cons b rest2 => exact .inr (by rw [h, List.getLast?_cons_cons])
      · exact .inr (by simp [hp])

theorem stripChars_eq_self {l : List Char} (h : ∀ c ∈ l, isPySpace c = false) :
    stripChars l = l := by
  unfold stripChars
  rw [dropWhile_eq_self_of _ _ h,
    dropWhile_eq_self_of _ _ (fun c hc => h c (by simpa using hc)),
    List.reverse_reverse]

theorem stripChars_idem (l : List Char) : stripChars (stripChars l) = stripChars l := by
  have hdef : ∀ X : List Char,
      stripChars X = ((X.dropWhile isPySpace).reverse.dropWhile isPySpace).reverse :=
    fun _ => rfl
  have hstep : (stripChars l).dropWhile isPySpace = stripChars l := by
    cases hm : (stripChars l).head? with
    | none =>
        rw [List.head?_eq_none_iff] at hm
        simp [hm]
    | some c =>
        have hc : isPySpace c = false := by
          rw [hdef l, List.head?_reverse] at hm
          rcases getLast?_dropWhile isPySpace (l.dropWhile isPySpace).reverse with h | h
          · simp [h] at hm
          · rw [h] at hm
            have hrr := List.head?_reverse (l.dropWhile isPySpace).reverse
            rw [List.reverse_reverse] at hrr
            exact head?_dropWhile isPySpace l (hrr.trans hm)
        cases hsc : stripChars l with
        | nil => rfl
        | cons d rest =>
            rw [hsc] at hm
            simp only [List.head?_cons, Option.some.injEq] at hm
            rw [List.dropWhile_cons, hm, if_neg (by simp [hc])]
  rw [hdef (stripChars l), hstep, hdef l, List.reverse_reverse, List.dropWhile_idempotent]

theorem mk_eq_empty_iff (l : List Char) : String.mk l = "" ↔ l = [] := by
  constructor
  · intro h
    simpa using congrArg String.data h
  · rintro rfl
    rfl

theorem pyStrip_idem (s : String) : pyStrip (pyStrip s) = pyStrip s := by
  unfold pyStrip
  exact congrArg String.mk (stripChars_idem s.data)

theorem natDigitsGo_spec (fuel : Nat) :
    ∀ (n : Nat) (acc : List Char),
      ∃ ds, natDigitsGo fuel n acc = ds ++ acc ∧ (∀ c ∈ ds, c ∈ digitChars) ∧
        (0 < fuel → ds ≠ []) := by
  induction fuel with
  | zero =>
      intro n acc
      exact ⟨[], rfl, by simp, by simp⟩
  | succ f ih =>
      intro n acc
      by_cases h : n < 10
      · refine ⟨[Nat.digitChar n], by simp [natDigitsGo, h], ?_, by simp⟩
        intro c hc
        simp at hc
        subst hc
        interval_cases n <;> decide
      · obtain ⟨ds, hds, hdig, _⟩ := ih (n / 10) (Nat.digitChar (n % 10) :: acc)
        refine ⟨ds ++ [Nat.digitChar (n % 10)], ?_, ?_, by simp⟩
        · simp [natDigitsGo, h, hds]
        · intro c hc
          rcases List.mem_append.mp hc with hc | hc
          · exact hdig c hc
          · simp at hc
            subst hc
            have h10 : n % 10 < 10 := Nat.mod_lt _ (by omega)
            set m := n % 10 with hm
            interval_cases m <;> decide

theorem natDigits_spec (n : Nat) :
    natDigits n ≠ [] ∧ ∀ c ∈ natDigits n, c ∈ digitChars := by
  obtain ⟨ds, hds, hdig, hne⟩ := natDigitsGo_spec (n + 1) n []
  unfold natDigits
  rw [hds]
  simp only [List.append_nil]
  exact ⟨hne (by omega), hdig⟩

theorem digit_not_space {c : Char} (h : c ∈ digitChars) : isPySpace c = false := by
  fin_cases h <;> decide

/-- Python `str` of an `int` is non-empty and unchanged by `strip()`. -/
theorem intDec_strip (n : Int) : intDec n ≠ "" ∧ pyStrip (intDec n) = intDec n := by
  have hchars : ∀ c ∈ (intDec n).data, isPySpace c = false := by
    intro c hc
    unfold intDec at hc
    by_cases hn : n < 0
    · simp only [if_pos hn] at hc
      rcases (by simpa using hc : c = '-' ∨ c ∈ (natDec (-n).toNat).data) with hc | hc
      · subst hc
        decide
      · exact digit_not_space ((natDigits_spec _).2 c (by simpa [natDec] using hc))
    · simp only [if_neg hn] at hc
      exact digit_not_space ((natDigits_spec _).2 c (by simpa [natDec] using hc))
  refine ⟨?_, ?_⟩
  · unfold intDec
    by_cases hn : n < 0
    · simp only [if_pos hn]
      intro h
      have := congrArg String.data h
      simp [natDec] at this
    · simp only [if_neg hn]
      intro h
      exact (natDigits_spec n.toNat).1 ((mk_eq_empty_iff _).mp h)
  · unfold pyStrip
    rw [stripChars_eq_self hchars]

/-- `str(v).strip()` for a non-string scalar is `str(v)` itself, and is
non-empty (`"None"`, `"True"`, `"False"`, or a decimal numeral). -/
theorem scalar_strip (v : JVal) (h : nonStringScalar v) :
    pyStrip (pyStr v) = pyStr v ∧ pyStr v ≠ "" := by
  rcases h with rfl | ⟨b, rfl⟩ | ⟨n, rfl⟩
  · exact ⟨by decide, by decide⟩
  · cases b
    · exact ⟨by decide, by decide⟩
    · exact ⟨by decide, by decide⟩
  · exact ⟨(intDec_strip n).2, (intDec_strip n).1⟩

/-! ## Lemmas: batch normalization -/

theorem normalizeEntries_eq_filterMap (l : List JVal) :
    normalizeEntries l = l.filterMap entryPair? := by
  induction l with
  | nil => rfl
  | cons e rest ih =>
      cases e with
      | jobj fs =>
          by_cases h : pyStrip (pyStr (getField fs "swiss_sentence")) ≠ "" ∧
              pyStrip (pyStr (getField fs "reference_translation")) ≠ ""
          · simp [normalizeEntries, entryPair?, if_pos h, ih, List.filterMap_cons]
          · simp [normalizeEntries, entryPair?, if_neg h, ih, List.filterMap_cons]
      | jnull => simpa [normalizeEntries, entryPair?, List.filterMap_cons] using ih
      | jbool b => simpa [normalizeEntries, entryPair?, List.filterMap_cons] using ih
      | jnum n => simpa [normalizeEntries, entryPair?, List.filterMap_cons] using ih
      | jstr s => simpa [normalizeEntries, entryPair?, List.filterMap_cons] using ih
      | jarr xs => simpa [normalizeEntries, entryPair?, List.filterMap_cons] using ih

/-! ## Lemmas: the LRU cache -/

theorem lruFind_cons_self [DecidableEq κ] (c : List (κ × ν)) (k : κ) (v : ν) :
    lruFind ((k, v) :: c) k = some v := by
  simp [lruFind, List.find?_cons]

/-- Call-shape equation: hit. -/
theorem lruCall_hit_eq [DecidableEq κ] (cap : Nat) (body : κ → Except ε ν)
    (c : List (κ × ν)) (k : κ) (v : ν) (hf : lruFind c k = some v) :
    lruCall cap body c k = (.ok v, (k, v) :: c.filter (fun p => ¬ p.1 = k), false) := by
  unfold lruCall
  rw [hf]

/-- Call-shape equation: miss with a successful body. -/
theorem lruCall_miss_ok [DecidableEq κ] (cap : Nat) (body : κ → Except ε ν)
    (c : List (κ × ν)) (k : κ) (v : ν)
    (hf : lruFind c k = none) (hb : body k = .ok v) :
    lruCall cap body c k = (.ok v, ((k, v) :: c).take cap, true) := by
  unfold lruCall
  rw [hf, hb]

/-- Call-shape equation: miss whose body raises — the error propagates and the
cache is unchanged (nothing is memoized). -/
theorem lruCall_error [DecidableEq κ] (cap : Nat) (body : κ → Except ε ν)
    (c : List (κ × ν)) (k : κ) (e : ε)
    (hmiss : lruFind c k = none) (hb : body k = .error e) :
    lruCall cap body c k = (.error e, c, true) := by
  unfold lruCall
  rw [hmiss, hb]

theorem find?_filter_length [DecidableEq κ] (k : κ) :
    ∀ c : List (κ × ν), (c.find? (fun p => p.1 = k)).isSome →
      (c.filter (fun p => ¬ p.1 = k)).length < c.length := by
  intro c
  induction c with
  | nil => simp
  | cons a rest ih =>
      intro h
      by_cases ha : a.1 = k
      · have heq : (a :: rest).filter (fun p => ¬ p.1 = k) =
            rest.filter (fun p => ¬ p.1 = k) := by
          simp [List.filter_cons, ha]
        rw [heq]
        calc (rest.filter (fun p => ¬ p.1 = k)).length ≤ rest.length :=
              List.length_filter_le _ _
          _ < (a :: rest).length := by simp
      · have h2 : (rest.find? (fun p => p.1 = k)).isSome := by
          rw [List.find?_cons] at h
          simpa [ha] using h
        have heq : (a :: rest).filter (fun p => ¬ p.1 = k) =
            a :: rest.filter (fun p => ¬ p.1 = k) := by
          simp [List.filter_cons, ha]
        rw [heq]
        simpa using ih h2

/-- After a call that returns `.ok v`, the key sits at the front of the cache
with value `v` (most-recently-used position), for any positive capacity. -/
theorem lruCall_ok_head [DecidableEq κ] (cap : Nat) (body : κ → Except ε ν)
    (c : List (κ × ν)) (k : κ) (v : ν) (hcap : 0 < cap)
    (h : (lruCall cap body c k).1 = .ok v) :
    ∃ c', (lruCall cap body c k).2.1 = (k, v) :: c' := by
  cases hf : lruFind c k with
  | some w =>
      have hcall := lruCall_hit_eq cap body c k w hf
      rw [hcall] at h
      simp only [Except.ok.injEq] at h
      subst h
      exact ⟨_, by rw [hcall]⟩
  | none =>
      cases hb : body k with
      | error e =>
          rw [lruCall_error cap body c k e hf hb] at h
          exact absurd h (by simp)
      | ok w =>
          have hcall := lruCall_miss_ok cap body c k w hf hb
          rw [hcall] at h
          simp only [Except.ok.injEq] at h
          subst h
          obtain ⟨m, rfl⟩ : ∃ m, cap = m + 1 := ⟨cap - 1, by omega⟩
          exact ⟨c.take m, by rw [hcall]; rfl⟩

/-- One call never grows the cache beyond `cap` (for `cap`-bounded input). -/
theorem lruCall_length [DecidableEq κ] (cap : Nat) (body : κ → Except ε ν)
    (c : List (κ × ν)) (k : κ) (hc : c.length ≤ cap) :
    ((lruCall cap body c k).2.1).length ≤ cap := by
  cases hf : lruFind c k with
  | some w =>
      have hsome : (c.find? (fun p => p.1 = k)).isSome := by
        unfold lruFind at hf
        cases hfc : c.find? (fun p => p.1 = k) with
        | none => rw [hfc] at hf; simp at hf
        | some p => simp [hfc]
      rw [lruCall_hit_eq cap body c k w hf]
      have := find?_filter_length k c hsome
      simp only [List.length_cons]
      omega
  | none =>
      cases hb : body k with
      | error e => rw [lruCall_error cap body c k e hf hb]; simpa using hc
      | ok w =>
          rw [lruCall_miss_ok cap body c k w hf hb]
          simp [List.length_take_le]

/-- A miss on a full cache with a successful body evicts exactly the
least-recently-used (last) entry and inserts the key at the front. -/
theorem lruCall_evict [DecidableEq κ] (body : κ → Except ε ν)
    (c : List (κ × ν)) (k : κ) (v : ν) (cap : Nat) (hcap : 0 < cap)
    (hlen : c.length = cap) (hmiss : lruFind c k = none) (hb : body k = .ok v) :
    (lruCall cap body c k).2.1 = (k, v) :: c.dropLast := by
  rw [lruCall_miss_ok cap body c k v hmiss hb]
  cases cap with
  | zero => omega
  | succ m =>
      have : c.take m = c.dropLast := by
        rw [List.dropLast_eq_take, hlen]
        simp
      simp [this]

/-! ## Lemmas: binary64 rounding -/

theorem pow2_eq_zpow (e : Int) : pow2 e = (2 : ℚ) ^ e := by
  unfold pow2
  by_cases h : 0 ≤ e
  · rw [if_pos h, ← zpow_natCast]
    congr 1
    exact Int.toNat_of_nonneg h
  · rw [if_neg h]
    have h2 : ((-e).toNat : Int) = -e := Int.toNat_of_nonneg (by omega)
    rw [one_div, ← zpow_natCast, h2, ← zpow_neg, neg_neg]

theorem pow2_pos (e : Int) : 0 < pow2 e := by
  rw [pow2_eq_zpow]
  positivity

theorem pow2_mono {e f : Int} (h : e ≤ f) : pow2 e ≤ pow2 f := by
  rw [pow2_eq_zpow, pow2_eq_zpow]
  exact (zpow_le_zpow_iff_right₀ (by norm_num)).mpr h

theorem pow2_add (e f : Int) : pow2 (e + f) = pow2 e * pow2 f := by
  rw [pow2_eq_zpow, pow2_eq_zpow, pow2_eq_zpow]
  exact zpow_add₀ (by norm_num) e f

theorem pow2_natCast (k : Nat) : pow2 (k : Int) = ((2 ^ k : ℕ) : ℚ) := by
  rw [pow2_eq_zpow, zpow_natCast]
  push_cast
  ring

theorem floorLog2_spec (q : ℚ) (hq : 0 < q) :
    pow2 (floorLog2 q) ≤ q ∧ q < pow2 (floorLog2 q + 1) := by
  unfold floorLog2
  rw [pow2_eq_zpow, pow2_eq_zpow]
  constructor
  · have := Int.zpow_log_le_self (b := 2) (by norm_num) hq
    exact_mod_cast this
  · have := Int.lt_zpow_succ_log_self (b := 2) (by norm_num) q
    exact_mod_cast this

theorem floorLog2_eq_of (q : ℚ) (e : Int) (hq : 0 < q)
    (h1 : pow2 e ≤ q) (h2 : q < pow2 (e + 1)) : floorLog2 q = e := by
  obtain ⟨s1, s2⟩ := floorLog2_spec q hq
  by_contra hne
  rcases lt_or_gt_of_ne hne with hlt | hgt
  · have hle : floorLog2 q + 1 ≤ e := by omega
    exact absurd (lt_of_lt_of_le (lt_of_lt_of_le s2 (pow2_mono hle)) h1) (lt_irrefl q)
  · have hle : e + 1 ≤ floorLog2 q := by omega
    exact absurd (lt_of_lt_of_le (lt_of_lt_of_le h2 (pow2_mono hle)) s1) (lt_irrefl q)

theorem roundHalfEven_le (q : ℚ) : |(roundHalfEven q : ℚ) - q| ≤ 1 / 2 := by
  unfold roundHalfEven
  have hf1 : (⌊q⌋ : ℚ) ≤ q := Int.floor_le q
  have hf2 : q < ⌊q⌋ + 1 := Int.lt_floor_add_one q
  by_cases hgt : 1 / 2 < q - ⌊q⌋
  · rw [if_pos hgt]
    rw [abs_le]
    constructor <;> push_cast <;> linarith
  · rw [if_neg hgt]
    by_cases hlt : q - ⌊q⌋ < 1 / 2
    · rw [if_pos hlt]
      rw [abs_le]
      constructor <;> linarith
    · rw [if_neg hlt]
      have heq : q - ⌊q⌋ = 1 / 2 := by linarith
      by_cases hev : ⌊q⌋ % 2 = 0
      · rw [if_pos hev, abs_le]
        constructor <;> linarith
      · rw [if_neg hev, abs_le]
        constructor <;> push_cast <;> linarith

/-- Evaluation rule for `fl` at a positive rational: supply the floor
logarithm bracket and the rounded scaled significand. -/
theorem fl_eval (q : ℚ) (e m : Int) (hq : 0 < q)
    (h1 : pow2 e ≤ q) (h2 : q < pow2 (e + 1))
    (hm : roundHalfEven (q / pow2 (e - 52)) = m) :
    fl q = (m : ℚ) * pow2 (e - 52) := by
  unfold fl flPos
  rw [if_neg (ne_of_gt hq), if_pos hq, floorLog2_eq_of q e hq h1 h2]
  exact congrArg (fun z : Int => (z : ℚ) * pow2 (e - 52)) hm

theorem fl_zero : fl 0 = 0 := by
  unfold fl
  simp

/-- Relative error of `fl`: at most one half ulp, hence a `2 ^ (-53)` relative
bound for positive arguments. -/
theorem fl_error (q : ℚ) (hq : 0 < q) : |fl q - q| ≤ q * pow2 (-53) := by
  obtain ⟨s1, s2⟩ := floorLog2_spec q hq
  unfold fl flPos
  rw [if_neg (ne_of_gt hq), if_pos hq]
  set e : Int := floorLog2 q - 52 with he
  have hpe : 0 < pow2 e := pow2_pos e
  have hr := roundHalfEven_le (q / pow2 e)
  have habs : |(roundHalfEven (q / pow2 e) : ℚ) * pow2 e - q| ≤ pow2 e / 2 := by
    have : (roundHalfEven (q / pow2 e) : ℚ) * pow2 e - q =
        ((roundHalfEven (q / pow2 e) : ℚ) - q / pow2 e) * pow2 e := by
      field_simp
    rw [this, abs_mul, abs_of_pos hpe]
    calc |(roundHalfEven (q / pow2 e) : ℚ) - q / pow2 e| * pow2 e ≤ (1 / 2) * pow2 e := by
          exact mul_le_mul_of_nonneg_right hr hpe.le
      _ = pow2 e / 2 := by ring
  calc |(roundHalfEven (q / pow2 e) : ℚ) * pow2 e - q| ≤ pow2 e / 2 := habs
    _ = pow2 (floorLog2 q) * pow2 (-53) := by
        rw [he, show floorLog2 q - 52 = floorLog2 q + -52 by ring, pow2_add]
        have : pow2 (-52 : Int) = 2 * pow2 (-53 : Int) := by
          rw [show (-52 : Int) = 1 + -53 by ring, pow2_add]
          norm_num [pow2]
        rw [this]
        ring
    _ ≤ q * pow2 (-53) := by
        exact mul_le_mul_of_nonneg_right s1 (pow2_pos _).le

theorem fl_bounds (q : ℚ) (hq : 0 ≤ q) :
    q * (1 - pow2 (-53)) ≤ fl q ∧ fl q ≤ q * (1 + pow2 (-53)) := by
  rcases eq_or_lt_of_le hq with rfl | hq
  · simp [fl_zero]
  · have h := fl_error q hq
    rw [abs_le] at h
    constructor <;> nlinarith [h.1, h.2]

theorem roundHalfEven_of_lt (q : ℚ) (f : Int) (hf : ⌊q⌋ = f) (h : q - f < 1 / 2) :
    roundHalfEven q = f := by
  unfold roundHalfEven
  rw [hf, if_neg (by linarith), if_pos h]

theorem roundHalfEven_of_gt (q : ℚ) (f : Int) (hf : ⌊q⌋ = f) (h : 1 / 2 < q - f) :
    roundHalfEven q = f + 1 := by
  unfold roundHalfEven
  rw [hf, if_pos h]

theorem roundHalfEven_tie_even (q : ℚ) (f : Int) (hf : ⌊q⌋ = f) (h : q - f = 1 / 2)
    (hev : f % 2 = 0) : roundHalfEven q = f := by
  unfold roundHalfEven
  rw [hf, if_neg (by linarith), if_neg (by linarith), if_pos hev]

theorem roundHalfEven_intCast (m : Int) : roundHalfEven (m : ℚ) = m := by
  unfold roundHalfEven
  rw [Int.floor_intCast, if_neg (by norm_num), if_pos (by norm_num)]

/-- A value already representable in 53 bits at its scale is a fixed point of
`fl`. -/
theorem fl_exact (q : ℚ) (e m : Int) (hq : 0 < q)
    (h1 : pow2 e ≤ q) (h2 : q < pow2 (e + 1)) (hqm : q = (m : ℚ) * pow2 (e - 52)) :
    fl q = q := by
  have hscale : q / pow2 (e - 52) = (m : ℚ) := by
    rw [hqm, mul_div_assoc, div_self (ne_of_gt (pow2_pos _)), mul_one]
  have hm : roundHalfEven (q / pow2 (e - 52)) = m := by
    rw [hscale, roundHalfEven_intCast]
  rw [fl_eval q e m hq h1 h2 hm, ← hqm]

/-! Concrete evaluation of the frame count at text lengths 0, 5 and 1000.
At length 5 the exact product is `15435` but the binary64 value of
`0.7 * 22050` is just below it, so `int(...)` truncates to `15434`. -/

theorem fl_fifth : fl ((5 : ℚ) / 25) = 7205759403792794 * pow2 (-55 : Int) := by
  have h1 : pow2 (-3 : Int) ≤ (5 : ℚ) / 25 := by norm_num [pow2, Int.toNat]
  have h2 : (5 : ℚ) / 25 < pow2 ((-3 : Int) + 1) := by norm_num [pow2, Int.toNat]
  have hf : ⌊(5 : ℚ) / 25 / pow2 ((-3 : Int) - 52)⌋ = 7205759403792793 := by
    rw [Int.floor_eq_iff]
    constructor <;> norm_num [pow2, Int.toNat]
  have hm : roundHalfEven ((5 : ℚ) / 25 / pow2 ((-3 : Int) - 52)) = 7205759403792794 := by
    have := roundHalfEven_of_gt _ _ hf (by norm_num [pow2, Int.toNat])
    simpa using this
  have := fl_eval ((5 : ℚ) / 25) (-3) 7205759403792794 (by norm_num) h1 h2 hm
  simpa using this

theorem fl_point7 :
    fl (1 / 2 + 7205759403792794 * pow2 (-55 : Int)) =
      6305039478318694 * pow2 (-53 : Int) := by
  have h1 : pow2 (-1 : Int) ≤ 1 / 2 + 7205759403792794 * pow2 (-55 : Int) := by
    norm_num [pow2, Int.toNat]
  have h2 : 1 / 2 + 7205759403792794 * pow2 (-55 : Int) < pow2 ((-1 : Int) + 1) := by
    norm_num [pow2, Int.toNat]
  have hf : ⌊(1 / 2 + 7205759403792794 * pow2 (-55 : Int)) / pow2 ((-1 : Int) - 52)⌋ =
      6305039478318694 := by
    rw [Int.floor_eq_iff]
    constructor <;> norm_num [pow2, Int.toNat]
  have hm : roundHalfEven ((1 / 2 + 7205759403792794 * pow2 (-55 : Int)) /
      pow2 ((-1 : Int) - 52)) = 6305039478318694 := by
    exact roundHalfEven_tie_even _ _ hf (by norm_num [pow2, Int.toNat]) (by norm_num)
  have := fl_eval _ (-1) 6305039478318694 (by norm_num [pow2, Int.toNat]) h1 h2 hm
  simpa using this

theorem fl_prod5 :
    fl (6305039478318694 * pow2 (-53 : Int) * 22050) =
      8485480987361279 * pow2 (-39 : Int) := by
  have h1 : pow2 (13 : Int) ≤ 6305039478318694 * pow2 (-53 : Int) * 22050 := by
    norm_num [pow2, Int.toNat]
  have h2 : 6305039478318694 * pow2 (-53 : Int) * 22050 < pow2 ((13 : Int) + 1) := by
    norm_num [pow2, Int.toNat]
  have hf : ⌊6305039478318694 * pow2 (-53 : Int) * 22050 / pow2 ((13 : Int) - 52)⌋ =
      8485480987361279 := by
    rw [Int.floor_eq_iff]
    constructor <;> norm_num [pow2, Int.toNat]
  have hm : roundHalfEven (6305039478318694 * pow2 (-53 : Int) * 22050 /
      pow2 ((13 : Int) - 52)) = 8485480987361279 := by
    exact roundHalfEven_of_lt _ _ hf (by norm_num [pow2, Int.toNat])
  have := fl_eval _ 13 8485480987361279 (by norm_num [pow2, Int.toNat]) h1 h2 hm
  simpa using this

theorem total_frames_5 : total_frames 5 = 15434 := by
  unfold total_frames duration_seconds
  have hc : ((5 : ℕ) : ℚ) / 25 = (5 : ℚ) / 25 := by norm_num
  rw [hc, fl_fifth, fl_point7]
  rw [min_eq_right (by norm_num [pow2, Int.toNat])]
  rw [fl_prod5]
  have hfloor : ⌊(8485480987361279 : ℚ) * pow2 (-39 : Int)⌋ = 15434 := by
    rw [Int.floor_eq_iff]
    constructor <;> norm_num [pow2, Int.toNat]
  rw [hfloor]
  rfl

theorem total_frames_0 : total_frames 0 = 11025 := by
  unfold total_frames duration_seconds
  have hc : ((0 : ℕ) : ℚ) / 25 = 0 := by norm_num
  rw [hc, fl_zero]
  have hhalf : fl (1 / 2 + 0) = 1 / 2 := by
    rw [add_zero]
    exact fl_exact _ (-1) 4503599627370496 (by norm_num) (by norm_num [pow2, Int.toNat])
      (by norm_num [pow2, Int.toNat]) (by norm_num [pow2, Int.toNat])
  rw [hhalf]
  have hmin : min ((7 : ℚ) / 2) (1 / 2) = 1 / 2 := min_eq_right (by norm_num)
  rw [hmin]
  have hprod : fl ((1 : ℚ) / 2 * 22050) = 11025 := by
    rw [show (1 : ℚ) / 2 * 22050 = 11025 by norm_num]
    exact fl_exact _ 13 6061057848115200 (by norm_num) (by norm_num [pow2, Int.toNat])
      (by norm_num [pow2, Int.toNat]) (by norm_num [pow2, Int.toNat])
  rw [hprod]
  have hfloor : ⌊(11025 : ℚ)⌋ = 11025 := by norm_num
  rw [hfloor]
  rfl

theorem total_frames_1000 : total_frames 1000 = 77175 := by
  unfold total_frames duration_seconds
  have hc : ((1000 : ℕ) : ℚ) / 25 = 40 := by norm_num
  rw [hc]
  have h40 : fl (40 : ℚ) = 40 :=
    fl_exact _ 5 (40 * 140737488355328) (by norm_num) (by norm_num [pow2, Int.toNat])
      (by norm_num [pow2, Int.toNat]) (by norm_num [pow2, Int.toNat])
  rw [h40]
  have h405 : fl (1 / 2 + 40 : ℚ) = 1 / 2 + 40 :=
    fl_exact _ 5 (81 * 70368744177664) (by norm_num) (by norm_num [pow2, Int.toNat])
      (by norm_num [pow2, Int.toNat]) (by norm_num [pow2, Int.toNat])
  rw [h405, min_eq_left (by norm_num)]
  have hprod : fl ((7 : ℚ) / 2 * 22050) = 77175 := by
    rw [show (7 : ℚ) / 2 * 22050 = 77175 by norm_num]
    exact fl_exact _ 16 (77175 * 68719476736) (by norm_num) (by norm_num [pow2, Int.toNat])
      (by norm_num [pow2, Int.toNat]) (by norm_num [pow2, Int.toNat])
  rw [hprod]
  have hfloor : ⌊(77175 : ℚ)⌋ = 77175 := by norm_num
  rw [hfloor]
  rfl

theorem exactD (n : Nat) :
    min ((7 : ℚ) / 2) (1 / 2 + (n : ℚ) / 25) * 22050 = (exactCount n : ℚ) := by
  unfold exactCount
  by_cases h : n ≤ 75
  · rw [if_pos h]
    have hle : 1 / 2 + (n : ℚ) / 25 ≤ 7 / 2 := by
      have : (n : ℚ) ≤ 75 := by exact_mod_cast h
      linarith
    rw [min_eq_right hle]
    push_cast
    ring
  · rw [if_neg h]
    have hge : (7 : ℚ) / 2 ≤ 1 / 2 + (n : ℚ) / 25 := by
      have : (75 : ℚ) ≤ (n : ℚ) := by exact_mod_cast (by omega : 75 ≤ n)
      linarith
    rw [min_eq_left hge]
    norm_num

theorem claimed_eq_exact (n : Nat) : claimedSampleCount n = (exactCount n : Int) := by
  unfold claimedSampleCount
  rw [exactD]
  exact_mod_cast round_natCast (exactCount n)

set_option maxHeartbeats 1000000 in
/-- The binary64-evaluated frame count is the exact `round` value or one less:
three correctly-rounded operations perturb the product by strictly less than
one, and truncation then lands on the exact integer or its predecessor. -/
theorem total_frames_bracket (n : Nat) :
    claimedSampleCount n - 1 ≤ (total_frames n : Int) ∧
      (total_frames n : Int) ≤ claimedSampleCount n := by
  set a : ℚ := (n : ℚ) / 25 with ha
  have ha0 : 0 ≤ a := by positivity
  clear_value a
  obtain ⟨hy1l, hy1r⟩ := fl_bounds a ha0
  have h1e : (0 : ℚ) ≤ 1 - pow2 (-53 : Int) := by norm_num [pow2, Int.toNat]
  have hfla0 : 0 ≤ fl a := by nlinarith
  set b : ℚ := 1 / 2 + fl a with hb
  clear_value b
  have hb0 : 0 < b := by rw [hb]; linarith
  obtain ⟨hy2l, hy2r⟩ := fl_bounds b hb0.le
  have hflb0 : 0 ≤ fl b := by nlinarith
  set m : ℚ := min ((7 : ℚ) / 2) (fl b) with hm
  clear_value m
  have hm0 : 0 ≤ m := by rw [hm]; exact le_min (by norm_num) hflb0
  obtain ⟨hzl, hzr⟩ := fl_bounds (m * 22050) (mul_nonneg hm0 (by norm_num))
  set z : ℚ := fl (m * 22050) with hz
  clear_value z
  set eps : ℚ := pow2 (-53 : Int) with heps
  clear_value eps
  have hepsv : eps = 1 / 9007199254740992 := by
    rw [heps]
    norm_num [pow2, Int.toNat]
  have heps0 : 0 < eps := by rw [hepsv]; norm_num
  have heps1 : eps ≤ 1 / 4 := by rw [hepsv]; norm_num
  have h1e2 : (0 : ℚ) ≤ 1 + eps := by linarith
  set e_b : ℚ := 1 / 2 + a with heb
  clear_value e_b
  have heb0 : 0 < e_b := by rw [heb]; linarith
  have hb_lo : e_b * (1 - eps) ≤ b := by
    rw [heb, hb]
    nlinarith
  have hb_hi : b ≤ e_b * (1 + eps) := by
    rw [heb, hb]
    nlinarith
  have hlo2 : e_b * (1 - eps) ^ 2 ≤ fl b := by
    calc e_b * (1 - eps) ^ 2 = (e_b * (1 - eps)) * (1 - eps) := by ring
      _ ≤ b * (1 - eps) := mul_le_mul_of_nonneg_right hb_lo h1e
      _ = b * 1 - b * eps := by ring
      _ ≤ fl b := by nlinarith
  have hhi2 : fl b ≤ e_b * (1 + eps) ^ 2 := by
    calc fl b ≤ b * (1 + eps) := by nlinarith
      _ ≤ (e_b * (1 + eps)) * (1 + eps) := mul_le_mul_of_nonneg_right hb_hi h1e2
      _ = e_b * (1 + eps) ^ 2 := by ring
  set d : ℚ := min ((7 : ℚ) / 2) e_b with hd
  clear_value d
  have hd0 : 0 ≤ d := by rw [hd]; exact le_min (by norm_num) heb0.le
  have hsq_le : (1 - eps) ^ 2 ≤ 1 := by nlinarith
  have hsq_ge : 1 ≤ (1 + eps) ^ 2 := by nlinarith
  have hm_lo : d * (1 - eps) ^ 2 ≤ m := by
    rw [hm]
    apply le_min
    · have hd72 : d ≤ 7 / 2 := by rw [hd]; exact min_le_left _ _
      calc d * (1 - eps) ^ 2 ≤ d * 1 := mul_le_mul_of_nonneg_left hsq_le hd0
        _ ≤ 7 / 2 := by linarith
    · have hdeb : d ≤ e_b := by rw [hd]; exact min_le_right _ _
      calc d * (1 - eps) ^ 2 ≤ e_b * (1 - eps) ^ 2 :=
            mul_le_mul_of_nonneg_right hdeb (sq_nonneg _)
        _ ≤ fl b := hlo2
  have hm_hi : m ≤ d * (1 + eps) ^ 2 := by
    rcases le_total ((7 : ℚ) / 2) e_b with hcase | hcase
    · have hdv : d = 7 / 2 := by rw [hd]; exact min_eq_left hcase
      have hm72 : m ≤ 7 / 2 := by rw [hm]; exact min_le_left _ _
      rw [hdv]
      calc m ≤ 7 / 2 := hm72
        _ = 7 / 2 * 1 := by ring
        _ ≤ 7 / 2 * (1 + eps) ^ 2 := mul_le_mul_of_nonneg_left hsq_ge (by norm_num)
    · have hdv : d = e_b := by rw [hd]; exact min_eq_right hcase
      have hmf : m ≤ fl b := by rw [hm]; exact min_le_right _ _
      rw [hdv]
      linarith [hhi2]
  set N : Nat := exactCount n with hN
  clear_value N
  have hDN : d * 22050 = (N : ℚ) := by
    rw [hd, heb, hN, ha]
    exact exactD n
  have hN77 : (N : ℚ) ≤ 77175 := by
    have hle : N ≤ 77175 := by
      rw [hN]
      unfold exactCount
      by_cases h : n ≤ 75
      · rw [if_pos h]; omega
      · rw [if_neg h]
    exact_mod_cast hle
  have hNnat : 0 < N := by
    rw [hN]
    unfold exactCount
    by_cases h : n ≤ 75
    · rw [if_pos h]; omega
    · rw [if_neg h]; omega
  have hN0 : 0 < (N : ℚ) := by exact_mod_cast hNnat
  have hcube_lo : 1 - 3 * eps ≤ (1 - eps) ^ 3 := by nlinarith [sq_nonneg eps]
  have hcube_hi : (1 + eps) ^ 3 ≤ 1 + 4 * eps := by nlinarith [sq_nonneg eps]
  have h3eps : 77175 * (3 * eps) < 1 := by rw [hepsv]; norm_num
  have h4eps : 77175 * (4 * eps) < 1 := by rw [hepsv]; norm_num
  have hz_lo : (N : ℚ) - 1 < z := by
    have hc1 : (N : ℚ) * (1 - eps) ^ 3 ≤ z := by
      calc (N : ℚ) * (1 - eps) ^ 3 = (d * (1 - eps) ^ 2 * 22050) * (1 - eps) := by
            rw [← hDN]; ring
        _ ≤ (m * 22050) * (1 - eps) :=
            mul_le_mul_of_nonneg_right
              (mul_le_mul_of_nonneg_right hm_lo (by norm_num)) h1e
        _ = m * 22050 * 1 - m * 22050 * eps := by ring
        _ ≤ z := by nlinarith
    have hc2 : (N : ℚ) * (1 - 3 * eps) ≤ (N : ℚ) * (1 - eps) ^ 3 :=
      mul_le_mul_of_nonneg_left hcube_lo hN0.le
    have hc3 : (N : ℚ) * (3 * eps) ≤ 77175 * (3 * eps) :=
      mul_le_mul_of_nonneg_right hN77 (by linarith)
    nlinarith
  have hz_hi : z < (N : ℚ) + 1 := by
    have hc1 : z ≤ (N : ℚ) * (1 + eps) ^ 3 := by
      calc z ≤ m * 22050 * (1 + eps) := hzr
        _ ≤ (d * (1 + eps) ^ 2 * 22050) * (1 + eps) :=
            mul_le_mul_of_nonneg_right
              (mul_le_mul_of_nonneg_right hm_hi (by norm_num)) h1e2
        _ = (N : ℚ) * (1 + eps) ^ 3 := by rw [← hDN]; ring
    have hc2 : (N : ℚ) * (1 + eps) ^ 3 ≤ (N : ℚ) * (1 + 4 * eps) :=
      mul_le_mul_of_nonneg_left hcube_hi hN0.le
    have hc3 : (N : ℚ) * (4 * eps) ≤ 77175 * (4 * eps) :=
      mul_le_mul_of_nonneg_right hN77 (by linarith)
    nlinarith
  have hfloor_lo : (N : Int) - 1 ≤ ⌊z⌋ := by
    apply Int.le_floor.mpr
    push_cast
    linarith
  have hfloor_hi : ⌊z⌋ ≤ (N : Int) := by
    have hlt : ⌊z⌋ < (N : Int) + 1 := Int.floor_lt.mpr (by push_cast; linarith)
    omega
  have htf : (total_frames n : Int) = ⌊z⌋ := by
    unfold total_frames
    have hzz : fl (duration_seconds n * 22050) = z := by
      rw [hz]
      congr 1
      unfold duration_seconds
      rw [hm, hb, ha]
    rw [hzz]
    exact Int.toNat_of_nonneg (by omega)
  rw [htf, claimed_eq_exact n]
  rw [hN] at hfloor_lo hfloor_hi
  exact ⟨hfloor_lo, hfloor_hi⟩

/-! ## Lemmas: filesystem, base64, synthesized file -/

theorem fsRead_write_self (fs : FS) (p : String) (bytes : List Nat) :
    fsRead (fsWrite fs p bytes) p = some bytes := by
  simp [fsRead, fsWrite, List.find?_cons]

theorem fsRead_unlink_self (fs : FS) (p : String) :
    fsRead (fsUnlink fs p) p = none := by
  unfold fsRead fsUnlink
  induction fs with
  | nil => rfl
  | cons a rest ih =>
      by_cases ha : a.1 = p
      · rw [List.filter_cons, if_neg (by simp [ha])]
        exact ih
      · rw [List.filter_cons, if_pos (by simp [ha]), List.find?_cons,
          decide_eq_false ha]
        exact ih

theorem fsRead_unlink_none (fs : FS) (p q : String) (h : fsRead fs q = none) :
    fsRead (fsUnlink fs p) q = none := by
  unfold fsRead at h ⊢
  unfold fsUnlink
  induction fs with
  | nil => rfl
  | cons a rest ih =>
      rw [List.find?_cons] at h
      by_cases haq : a.1 = q
      · simp [haq] at h
      · by_cases hap : a.1 = p
        · simpa [List.filter_cons, hap] using ih (by simpa [haq] using h)
        · simpa [List.filter_cons, hap, List.find?_cons, haq] using
            ih (by simpa [haq] using h)

theorem b64encodeL_ne_nil (bs : List Nat) (h : bs ≠ []) : b64encodeL bs ≠ [] := by
  match bs with
  | [] => exact absurd rfl h
  | [b1] => simp [b64encodeL]
  | [b1, b2] => simp [b64encodeL]
  | b1 :: b2 :: b3 :: rest => simp [b64encodeL]

theorem b64encode_ne_empty (bs : List Nat) (h : bs ≠ []) : b64encode bs ≠ "" := by
  unfold b64encode
  intro hc
  exact b64encodeL_ne_nil bs h ((mk_eq_empty_iff _).mp hc)

theorem synthContent_ne_nil (n : Nat) : synthContent n ≠ [] := by
  simp [synthContent, wavHeader]

theorem guessMime_ne_empty (p : String) (s : String) (h : guessMime p = some s) :
    s ≠ "" := by
  unfold guessMime at h
  split_ifs at h <;> simp only [Option.some.injEq] at h <;> subst h <;> decide

theorem contentType_ne_empty (p : String) : (guessMime p).getD "audio/wav" ≠ "" := by
  cases hg : guessMime p with
  | none => decide
  | some s => simpa using guessMime_ne_empty p s hg

/-! ## Lemmas: `mapM` over `Except` -/

theorem mapM_ok_of {α β : Type} (f : α → Except Unit β) (g : α → β) :
    ∀ l : List α, (∀ x ∈ l, f x = .ok (g x)) → l.mapM f = .ok (l.map g) := by
  intro l
  induction l with
  | nil => intro _; rfl
  | cons a rest ih =>
      intro h
      rw [List.mapM_cons, h a (by simp), ih (fun x hx => h x (by simp [hx]))]
      rfl

theorem build_sentence_ok (topic : String) (batch : List SentencePair) (idx : Nat) :
    build_sentence topic (.ok batch) idx =
      .ok (match batch[idx]? with
            | some p => (p.swiss_sentence, p.reference_translation)
            | none => (placeholderSentence topic, fallbackTranslation)) := by
  cases h : batch[idx]? <;> simp [build_sentence, h]

theorem exerciseAt_id (topic dialect : String) (batch : List SentencePair) (idx : Nat) :
    (exerciseAt topic dialect batch idx).id = idx + 1 := by
  unfold exerciseAt
  cases batch[idx]? <;> rfl

/-! ## Lemmas: quantized samples (reals) -/

theorem pyTrunc_abs_le (x : ℝ) : |(pyTrunc x : ℝ)| ≤ |x| := by
  unfold pyTrunc
  by_cases h : 0 ≤ x
  · rw [if_pos h, abs_of_nonneg h,
      abs_of_nonneg (by exact_mod_cast Int.floor_nonneg.mpr h)]
    exact Int.floor_le x
  · push_neg at h
    have hc : ⌈x⌉ ≤ 0 := Int.ceil_le.mpr (by exact_mod_cast h.le)
    rw [if_neg (not_le.mpr h), abs_of_nonpos h.le,
      abs_of_nonpos (by exact_mod_cast hc)]
    exact neg_le_neg (Int.le_ceil x)

theorem placeholderSample_abs_le (i : Nat) : |placeholderSample i| ≤ 0.3 := by
  unfold placeholderSample
  rw [abs_mul]
  calc |(0.3 : ℝ)| * |Real.sin (2 * Real.pi * placeholderFreq i * i / 22050)| ≤
        |(0.3 : ℝ)| * 1 :=
        mul_le_mul_of_nonneg_left (Real.abs_sin_le_one _) (abs_nonneg _)
    _ = 0.3 := by norm_num

theorem fsExists_false_iff (fs : FS) (p : String) :
    fsExists fs p = false ↔ fsRead fs p = none := by
  unfold fsExists
  cases fsRead fs p <;> simp

theorem resolveAudio_remote (env : AudioEnv) (text dialect : String) (fs : FS)
    (p : String) (h : remoteCandidate env text dialect = some p)
    (hex : fsExists fs p = true) : resolveAudio env text dialect fs = (p, fs) := by
  unfold resolveAudio
  rw [h]
  simp [hex]

theorem resolveAudio_synth_of_miss (env : AudioEnv) (text dialect : String) (fs : FS)
    (p : String) (h : remoteCandidate env text dialect = some p)
    (hex : fsExists fs p = false) :
    resolveAudio env text dialect fs =
      (env.tmpPath, fsWrite fs env.tmpPath (synthContent text.length)) := by
  unfold resolveAudio
  rw [h]
  simp [hex]

theorem resolveAudio_synth_of_none (env : AudioEnv) (text dialect : String) (fs : FS)
    (h : remoteCandidate env text dialect = none) :
    resolveAudio env text dialect fs =
      (env.tmpPath, fsWrite fs env.tmpPath (synthContent text.length)) := by
  unfold resolveAudio
  rw [h]

theorem encode_ok (fs : FS) (p : String) (bs : List Nat) (h : fsRead fs p = some bs) :
    encode_audio_file false fs p =
      .ok ⟨b64encode bs, (guessMime p).getD "audio/wav"⟩ := by
  unfold encode_audio_file
  rw [if_neg (by simp), h]

/-- `fetch_audio` in terms of its resolved source, by definition. -/
theorem fetch_audio_eq (env : AudioEnv) (text dialect : String) (fs : FS) :
    fetch_audio env text dialect fs =
      (match encode_audio_file env.readFault (resolveAudio env text dialect fs).2
          (resolveAudio env text dialect fs).1 with
       | .error e => (.error e, (resolveAudio env text dialect fs).2)
       | .ok response =>
           (.ok response,
            if fsExists (resolveAudio env text dialect fs).2
                  (resolveAudio env text dialect fs).1 &&
                strStartsWith (baseName (resolveAudio env text dialect fs).1) "tmp" then
              fsUnlink (resolveAudio env text dialect fs).2
                (resolveAudio env text dialect fs).1
            else (resolveAudio env text dialect fs).2)) := rfl

/-! ## Claims -/

/-- C1 (counterexample): the claim "every temporary audio resource is deleted
on every exit path, including the path where base64 encoding / reading fails"
is false.  With the TTS handle unavailable, the pipeline synthesizes the
placeholder tone; the read inside `encode_audio_file` then raises, which
happens *before* the deletion block of `fetch_audio`, so the request fails and
the synthesized temp file is still on disk. -/
theorem claim_C1_counterexample :
    (fetch_audio envSynthFault "" "Zürich" []).1 = .error () ∧
    fsExists (fetch_audio envSynthFault "" "Zürich" []).2 "/tmp/tmpc1a2b3.wav" = true :=
  ⟨rfl, by decide⟩

/-- C1 (amended): on a request whose encoding step does not fail, the
synthesized placeholder file (whose `NamedTemporaryFile` name starts with
`"tmp"` and which is fresh) is absent from the filesystem when the request
completes, and the request succeeds; on the encoding-failure path no deletion
happens (see the counterexample), and a remote-returned path is deleted only
when its basename starts with `"tmp"`. -/
theorem claim_C1 :
    ∀ (env : AudioEnv) (text dialect : String) (fs : FS),
      env.readFault = false →
      strStartsWith (baseName env.tmpPath) "tmp" = true →
      fsExists fs env.tmpPath = false →
      (∃ resp, (fetch_audio env text dialect fs).1 = .ok resp) ∧
      fsExists (fetch_audio env text dialect fs).2 env.tmpPath = false := by
  intro env text dialect fs hrf hstart hfresh
  rw [fetch_audio_eq, hrf]
  cases hrc : remoteCandidate env text dialect with
  | some p =>
      cases hex : fsExists fs p with
      | true =>
          rw [resolveAudio_remote env text dialect fs p hrc hex]
          obtain ⟨bs, hbs⟩ : ∃ bs, fsRead fs p = some bs := by
            unfold fsExists at hex
            exact Option.isSome_iff_exists.mp hex
          rw [encode_ok fs p bs hbs]
          refine ⟨⟨_, rfl⟩, ?_⟩
          by_cases hdel : (fsExists fs p && strStartsWith (baseName p) "tmp") = true
          · simp only [hdel, if_pos]
            rw [fsExists_false_iff]
            exact fsRead_unlink_none fs p env.tmpPath ((fsExists_false_iff fs _).mp hfresh)
          · simp only [Bool.not_eq_true] at hdel
            simp only [hdel, Bool.false_eq_true, if_neg, not_false_iff]
            exact hfresh
      | false =>
          rw [resolveAudio_synth_of_miss env text dialect fs p hrc hex]
          rw [encode_ok _ _ _ (fsRead_write_self fs env.tmpPath (synthContent text.length))]
          have hdel : (fsExists (fsWrite fs env.tmpPath (synthContent text.length))
              env.tmpPath && strStartsWith (baseName env.tmpPath) "tmp") = true := by
            rw [hstart]
            unfold fsExists
            rw [fsRead_write_self]
            rfl
          refine ⟨⟨_, rfl⟩, ?_⟩
          simp only [hdel, if_pos]
          rw [fsExists_false_iff]
          exact fsRead_unlink_self _ _
  | none =>
      rw [resolveAudio_synth_of_none env text dialect fs hrc]
      rw [encode_ok _ _ _ (fsRead_write_self fs env.tmpPath (synthContent text.length))]
      have hdel : (fsExists (fsWrite fs env.tmpPath (synthContent text.length))
          env.tmpPath && strStartsWith (baseName env.tmpPath) "tmp") = true := by
        rw [hstart]
        unfold fsExists
        rw [fsRead_write_self]
        rfl
      refine ⟨⟨_, rfl⟩, ?_⟩
      simp only [hdel, if_pos]
      rw [fsExists_false_iff]
      exact fsRead_unlink_self _ _

/-- C1 (witness): concrete instance of the amended claim on the
fallback-synthesis path. -/
theorem claim_C1_witness :
    envRemoteOk.readFault = false ∧
    strStartsWith (baseName envRemoteOk.tmpPath) "tmp" = true ∧
    fsExists fsEmptyRemote envRemoteOk.tmpPath = false ∧
    ((∃ resp, (fetch_audio envRemoteOk "hoi" "Zürich" fsEmptyRemote).1 = .ok resp) ∧
      fsExists (fetch_audio envRemoteOk "hoi" "Zürich" fsEmptyRemote).2
        envRemoteOk.tmpPath = false) :=
  ⟨rfl, by decide, by decide,
    claim_C1 envRemoteOk "hoi" "Zürich" fsEmptyRemote rfl (by decide) (by decide)⟩

/-- C8 (counterexample): the claim that `acquireAudio` always returns
non-empty `audio_bytes` is false: when the remote TTS call returns a path to
an existing but empty file, the pipeline trusts it (the only check is
`exists()`), reads zero bytes, and returns an empty `audio_base64`. -/
theorem claim_C8_counterexample :
    (fetch_audio envRemoteOk "hoi" "Zürich" [("/srv/tts/out.wav", [])]).1 =
      .ok ⟨"", "audio/x-wav"⟩ := rfl

/-- C8 (amended): whenever reading succeeds, the payload's `content_type` is
non-empty (defaulting to `audio/wav`); `audio_base64` is non-empty whenever
the fallback synthesizer is used — handle unavailable, `predict` raised or
returned an unusable shape, or the remote path does not exist — and whenever
the remote file is non-empty; a remote-returned existing empty file yields
empty `audio_base64` (see the counterexample). -/
theorem claim_C8 :
    ∀ (env : AudioEnv) (text dialect : String) (fs : FS),
      env.readFault = false →
      ∃ resp, (fetch_audio env text dialect fs).1 = .ok resp ∧
        resp.content_type ≠ "" ∧
        (remoteCandidate env text dialect = none → resp.audio_base64 ≠ "") ∧
        (∀ p, remoteCandidate env text dialect = some p → fsExists fs p = false →
          resp.audio_base64 ≠ "") ∧
        (∀ p bs, remoteCandidate env text dialect = some p → fsRead fs p = some bs →
          bs ≠ [] → resp.audio_base64 ≠ "") := by
  intro env text dialect fs hrf
  rw [fetch_audio_eq, hrf]
  cases hrc : remoteCandidate env text dialect with
  | some p =>
      cases hex : fsExists fs p with
      | true =>
          rw [resolveAudio_remote env text dialect fs p hrc hex]
          obtain ⟨bs, hbs⟩ : ∃ bs, fsRead fs p = some bs := by
            unfold fsExists at hex
            exact Option.isSome_iff_exists.mp hex
          rw [encode_ok fs p bs hbs]
          refine ⟨_, rfl, contentType_ne_empty p, ?_, ?_, ?_⟩
          · intro hc
            exact absurd hc (by simp)
          · intro q hq hqex
            injection hq with hq
            subst hq
            rw [hex] at hqex
            exact absurd hqex (by simp)
          · intro q cs hq hcs hne
            injection hq with hq
            subst hq
            rw [hbs] at hcs
            injection hcs with hcs
            subst hcs
            exact b64encode_ne_empty bs hne
      | false =>
          rw [resolveAudio_synth_of_miss env text dialect fs p hrc hex]
          rw [encode_ok _ _ _ (fsRead_write_self fs env.tmpPath (synthContent text.length))]
          refine ⟨_, rfl, contentType_ne_empty env.tmpPath, ?_, ?_, ?_⟩
          · intro _
            exact b64encode_ne_empty _ (synthContent_ne_nil _)
          · intro _ _ _
            exact b64encode_ne_empty _ (synthContent_ne_nil _)
          · intro q cs hq hcs _
            injection hq with hq
            subst hq
            rw [(fsExists_false_iff fs p).mp hex] at hcs
            exact absurd hcs (by simp)
  | none =>
      rw [resolveAudio_synth_of_none env text dialect fs hrc]
      rw [encode_ok _ _ _ (fsRead_write_self fs env.tmpPath (synthContent text.length))]
      refine ⟨_, rfl, contentType_ne_empty env.tmpPath, ?_, ?_, ?_⟩
      · intro _
        exact b64encode_ne_empty _ (synthContent_ne_nil _)
      · intro _ _ _
        exact b64encode_ne_empty _ (synthContent_ne_nil _)
      · intro q cs hq hcs hne
        exact absurd hq (by simp)

/-- C8 (witness): concrete instance — handle unavailable, so the fallback
tone is synthesized and the payload fields are non-empty. -/
theorem claim_C8_witness :
    envSynthNoFault.readFault = false ∧
    remoteCandidate envSynthNoFault "hoi" "Bern" = none ∧
    ∃ resp, (fetch_audio envSynthNoFault "hoi" "Bern" []).1 = .ok resp ∧
      resp.content_type ≠ "" ∧ resp.audio_base64 ≠ "" := by
  obtain ⟨resp, h1, h2, h3, _, _⟩ := claim_C8 envSynthNoFault "hoi" "Bern" [] rfl
  exact ⟨rfl, rfl, resp, h1, h2, h3 rfl⟩

/-- C2 (counterexample): the claim that an outright upstream failure yields a
cached empty batch is false.  The `create` call sits outside the `try` block,
so when it raises, `_generate_sentence_batch` raises (no empty batch), nothing
is cached, and a subsequent identical call invokes upstream again. -/
theorem claim_C2_counterexample :
    (getBatchCall [] ("Zmorge", none) .raises).1 = .error () ∧
    (getBatchCall [] ("Zmorge", none) .raises).2.1 = [] ∧
    (getBatchCall (getBatchCall [] ("Zmorge", none) .raises).2.1
      ("Zmorge", none) .raises).2.2 = true :=
  ⟨rfl, rfl, by decide⟩

/-- C2 (amended): on a cache miss, if the upstream call *returns* but its
response fails to parse as JSON, or every parsed entry is discarded, the call
returns the empty batch, caches it under the key, and a subsequent call with
the same key performs no upstream call; if the upstream call itself raises,
the exception propagates and nothing is cached. -/
theorem claim_C2 :
    ∀ (c : BatchCache) (k : GenKey), lruFind c k = none →
      (∀ pr : Except Unit JVal,
          pr = .error () ∨ (∃ es, pr = .ok (.jarr es) ∧ normalizeEntries es = []) →
          getBatchCall c k (.returns pr) = (.ok [], ((k, []) :: c).take 24, true) ∧
          ∀ o₂, (getBatchCall (((k, []) :: c).take 24) k o₂).1 = .ok [] ∧
                (getBatchCall (((k, []) :: c).take 24) k o₂).2.2 = false) ∧
      getBatchCall c k .raises = (.error (), c, true) := by
  intro c k hmiss
  constructor
  · intro pr hpr
    have hbody : genBatchBody (.returns pr) = .ok [] := by
      rcases hpr with rfl | ⟨es, rfl, hes⟩
      · rfl
      · simp [genBatchBody, hes]
    refine ⟨lruCall_miss_ok 24 _ c k [] hmiss hbody, ?_⟩
    intro o₂
    have htake : ((k, ([] : List SentencePair)) :: c).take 24 =
        (k, ([] : List SentencePair)) :: c.take 23 := rfl
    rw [htake]
    have hhit := lruCall_hit_eq 24 (fun _ => genBatchBody o₂)
      ((k, ([] : List SentencePair)) :: c.take 23) k []
      (lruFind_cons_self (c.take 23) k [])
    unfold getBatchCall
    rw [hhit]
    exact ⟨rfl, rfl⟩
  · exact lruCall_error 24 _ c k () hmiss rfl

/-- C2 (witness): concrete instance — a parse failure yields a cached empty
batch; the follow-up call is a hit. -/
theorem claim_C2_witness :
    lruFind ([] : BatchCache) ("Znacht", none) = none ∧
    getBatchCall [] ("Znacht", none) (.returns (.error ())) =
      (.ok [], [(("Znacht", none), [])], true) ∧
    (getBatchCall [(("Znacht", none), [])] ("Znacht", none) .raises).1 = .ok [] ∧
    (getBatchCall [(("Znacht", none), [])] ("Znacht", none) .raises).2.2 = false := by
  have h := (claim_C2 [] ("Znacht", none) rfl).1 (.error ()) (Or.inl rfl)
  exact ⟨rfl, h.1, (h.2 .raises).1, (h.2 .raises).2⟩

/-- C3 (counterexample): the claim that `buildExercises` never raises is
false: when the upstream `create` call raises, the exception propagates
through `_generate_sentence_batch` and `build_sentence` out of
`generate_exercises`. -/
theorem claim_C3_counterexample :
    generate_exercises "Kochen" "Zürich" (genBatchBody .raises) = .error () := rfl

/-- C3 (amended): whenever the batch call returns (even an empty batch),
`generate_exercises` returns exactly 6 exercises with ids 1..6; indices beyond
the batch are filled with the deterministic placeholder sentence and the
fixed English fallback translation, and indices inside the batch use its
pairs. -/
theorem claim_C3 :
    ∀ (topic dialect : String) (batch : List SentencePair),
      ∃ exs, generate_exercises topic dialect (.ok batch) = .ok exs ∧
        exs.length = 6 ∧
        exs.map (fun e => e.id) = [1, 2, 3, 4, 5, 6] ∧
        (∀ idx, idx < 6 → batch[idx]? = none →
          exs[idx]? = some ⟨idx + 1, placeholderSentence topic,
            translationHint dialect, fallbackTranslation⟩) ∧
        (∀ idx p, idx < 6 → batch[idx]? = some p →
          exs[idx]? = some ⟨idx + 1, p.swiss_sentence,
            translationHint dialect, p.reference_translation⟩) := by
  intro topic dialect batch
  refine ⟨(List.range 6).map (exerciseAt topic dialect batch), ?_, by simp, ?_, ?_, ?_⟩
  · unfold generate_exercises
    apply mapM_ok_of
    intro idx _
    cases h : batch[idx]? with
    | some p => simp [build_sentence, h, exerciseAt]
    | none => simp [build_sentence, h, exerciseAt]
  · rw [List.map_map]
    have hcong : ∀ x ∈ List.range 6,
        ((fun e : Exercise => e.id) ∘ exerciseAt topic dialect batch) x = x + 1 :=
      fun x _ => exerciseAt_id topic dialect batch x
    rw [List.map_congr_left hcong]
    rfl
  · intro idx hlt hnone
    rw [List.getElem?_map, List.getElem?_range hlt]
    simp [exerciseAt, hnone]
  · intro idx p hlt hsome
    rw [List.getElem?_map, List.getElem?_range hlt]
    simp [exerciseAt, hsome]

/-- C3 (witness): concrete instance with a one-entry batch — six exercises,
index 0 from the batch, index 3 padded. -/
theorem claim_C3_witness :
    ∃ exs, generate_exercises "Znüni" "Bern"
        (.ok [⟨"Grüezi mitenand", "Hello everyone"⟩]) = .ok exs ∧
      exs.map (fun e => e.id) = [1, 2, 3, 4, 5, 6] ∧
      exs[3]? = some ⟨4, placeholderSentence "Znüni", translationHint "Bern",
        fallbackTranslation⟩ ∧
      exs[0]? = some ⟨1, "Grüezi mitenand", translationHint "Bern",
        "Hello everyone"⟩ := by
  obtain ⟨exs, h1, _, h3, h4, h5⟩ :=
    claim_C3 "Znüni" "Bern" [⟨"Grüezi mitenand", "Hello everyone"⟩]
  exact ⟨exs, h1, h3, h4 3 (by norm_num) rfl,
    h5 0 ⟨"Grüezi mitenand", "Hello everyone"⟩ (by norm_num) rfl⟩

/-- C4 (counterexample): the claim that two calls with an identical key
perform the upstream call at most once is false when the upstream call
raises: the failure is not cached, so both calls invoke upstream. -/
theorem claim_C4_counterexample :
    (getBatchCall [] ("Wandern", none) .raises).2.2 = true ∧
    (getBatchCall (getBatchCall [] ("Wandern", none) .raises).2.1
      ("Wandern", none) .raises).2.2 = true :=
  ⟨by decide, by decide⟩

/-- C4 (amended): for calls that complete normally the cache is memoizing and
LRU-bounded at 24: after a call on `k` returns a batch, a second call with
`k` returns the same batch with no upstream call; the cache never exceeds 24
entries; a miss on a full 24-entry cache with a successful body evicts exactly
the least-recently-used entry; every successful call leaves its key in the
most-recently-used (front) position. -/
theorem claim_C4 :
    (∀ (c : BatchCache) (k : GenKey) (o : UpstreamOutcome) (v : List SentencePair),
        (getBatchCall c k o).1 = .ok v →
        ∀ o₂, (getBatchCall (getBatchCall c k o).2.1 k o₂).1 = .ok v ∧
              (getBatchCall (getBatchCall c k o).2.1 k o₂).2.2 = false) ∧
    (∀ (c : BatchCache) (k : GenKey) (o : UpstreamOutcome),
        c.length ≤ 24 → ((getBatchCall c k o).2.1).length ≤ 24) ∧
    (∀ (c : BatchCache) (k : GenKey) (o : UpstreamOutcome) (v : List SentencePair),
        c.length = 24 → lruFind c k = none → genBatchBody o = .ok v →
        (getBatchCall c k o).2.1 = (k, v) :: c.dropLast) ∧
    (∀ (c : BatchCache) (k : GenKey) (o : UpstreamOutcome) (v : List SentencePair),
        (getBatchCall c k o).1 = .ok v →
        ∃ c', (getBatchCall c k o).2.1 = (k, v) :: c') := by
  refine ⟨?_, ?_, ?_, ?_⟩
  · intro c k o v h o₂
    obtain ⟨c', hc'⟩ := lruCall_ok_head 24 (fun _ => genBatchBody o) c k v
      (by norm_num) h
    have hsecond := lruCall_hit_eq 24 (fun _ => genBatchBody o₂) ((k, v) :: c') k v
      (lruFind_cons_self c' k v)
    unfold getBatchCall
    rw [hc', hsecond]
    exact ⟨rfl, rfl⟩
  · intro c k o hc
    exact lruCall_length 24 _ c k hc
  · intro c k o v hlen hmiss hbody
    exact lruCall_evict _ c k v 24 (by norm_num) hlen hmiss hbody
  · intro c k o v h
    exact lruCall_ok_head 24 _ c k v (by norm_num) h

/-- C4 (witness): concrete instances — memoization after a successful call,
the capacity bound, eviction of the last entry of a full 24-entry cache, and
the MRU-front invariant. -/
theorem claim_C4_witness :
    ((getBatchCall (getBatchCall [] ("Wandere", none)
        (.returns (.ok (.jarr [])))).2.1 ("Wandere", none) .raises).1 = .ok [] ∧
      (getBatchCall (getBatchCall [] ("Wandere", none)
        (.returns (.ok (.jarr [])))).2.1 ("Wandere", none) .raises).2.2 = false) ∧
    ((getBatchCall fullCache24 ("Wandere", none) .raises).2.1).length ≤ 24 ∧
    (getBatchCall fullCache24 ("Wandere", none)
        (.returns (.error ()))).2.1 =
      (("Wandere", none), []) :: fullCache24.dropLast ∧
    (∃ c', (getBatchCall [] ("Wandere", none)
        (.returns (.ok (.jarr [])))).2.1 = (("Wandere", none), []) :: c') :=
  ⟨claim_C4.1 [] ("Wandere", none) (.returns (.ok (.jarr []))) [] rfl .raises,
   claim_C4.2.1 fullCache24 ("Wandere", none) .raises (by decide),
   claim_C4.2.2.1 fullCache24 ("Wandere", none) (.returns (.error ())) []
     (by decide) (by decide) rfl,
   claim_C4.2.2.2 [] ("Wandere", none) (.returns (.ok (.jarr []))) [] rfl⟩

/-- C6: `get_tts_client` fails iff construction under the configured policy
fails and, when verification was enabled, the retry without verification also
fails; a failure is never cached (the memo stays empty and the next call
reconstructs), while a success is memoized and every later call returns the
same handle without reconstruction. -/
theorem claim_C6 :
    (∀ (v : Bool) (a : TTSAttempts),
        (getTtsClient v a none).1 = .error () ↔
          ((if v then a.withVerify else a.withoutVerify) = .fail ∧
            (v = true → a.withoutVerify = .fail))) ∧
    (∀ (v : Bool) (a : TTSAttempts),
        (getTtsClient v a none).1 = .error () →
          (getTtsClient v a none).2.1 = none ∧
          ∀ (v₂ : Bool) (a₂ : TTSAttempts),
            (getTtsClient v₂ a₂ (getTtsClient v a none).2.1).2.2 = true) ∧
    (∀ (v : Bool) (a : TTSAttempts) (h : Nat),
        getTtsClient v a (some h) = (.ok h, some h, false)) ∧
    (∀ (v : Bool) (a : TTSAttempts) (h : Nat),
        (getTtsClient v a none).1 = .ok h → (getTtsClient v a none).2.1 = some h) := by
  refine ⟨?_, ?_, ?_, ?_⟩
  · intro v a
    obtain ⟨av, aw⟩ := a
    cases v <;> cases av <;> cases aw <;> simp [getTtsClient, getTtsBody]
  · intro v a h
    obtain ⟨av, aw⟩ := a
    constructor
    · cases v <;> cases av <;> cases aw <;> simp_all [getTtsClient, getTtsBody]
    · intro v₂ a₂
      have hmemo : (getTtsClient v ⟨av, aw⟩ none).2.1 = none := by
        cases v <;> cases av <;> cases aw <;> simp_all [getTtsClient, getTtsBody]
      rw [hmemo]
      cases hb : getTtsBody v₂ a₂ <;> simp [getTtsClient, hb]
  · intro v a h
    rfl
  · intro v a h hok
    obtain ⟨av, aw⟩ := a
    cases v <;> cases av <;> cases aw <;> simp_all [getTtsClient, getTtsBody]

/-- C6 (witness): concrete instances — a double failure yields the error with
nothing memoized and the next call reconstructing; a memoized handle is
returned unchanged; a success is memoized. -/
theorem claim_C6_witness :
    (getTtsClient true ⟨.fail, .fail⟩ none).1 = .error () ∧
    (getTtsClient true ⟨.fail, .fail⟩ none).2.1 = none ∧
    (getTtsClient false ⟨.fail, .ok 9⟩
      (getTtsClient true ⟨.fail, .fail⟩ none).2.1).2.2 = true ∧
    getTtsClient false ⟨.fail, .ok 7⟩ (some 7) = (.ok 7, some 7, false) ∧
    (getTtsClient true ⟨.ok 3, .fail⟩ none).2.1 = some 3 := by
  have h1 : (getTtsClient true ⟨.fail, .fail⟩ none).1 = .error () :=
    (claim_C6.1 true ⟨.fail, .fail⟩).mpr ⟨rfl, fun _ => rfl⟩
  have h2 := claim_C6.2.1 true ⟨.fail, .fail⟩ h1
  exact ⟨h1, h2.1, h2.2 false ⟨.fail, .ok 9⟩,
    claim_C6.2.2.1 false ⟨.fail, .ok 7⟩ 7,
    claim_C6.2.2.2 true ⟨.ok 3, .fail⟩ 3 rfl⟩

/-- C7: during batch normalization, every entry that is not a JSON object, or
whose `swiss_sentence` or `reference_translation` is empty after stripping, is
silently discarded (removing it from the input leaves the result unchanged,
and no exception path exists — the model is a total function); and every pair
in the returned batch has both fields non-empty after stripping. -/
theorem claim_C7 :
    (∀ (e : JVal) (pre post : List JVal),
        ((∀ fs, e ≠ .jobj fs) ∨
          (∃ fs, e = .jobj fs ∧
            (pyStrip (pyStr (getField fs "swiss_sentence")) = "" ∨
             pyStrip (pyStr (getField fs "reference_translation")) = ""))) →
        normalizeEntries (pre ++ e :: post) = normalizeEntries (pre ++ post)) ∧
    (∀ (entries : List JVal) (p : SentencePair), p ∈ normalizeEntries entries →
        pyStrip p.swiss_sentence ≠ "" ∧ pyStrip p.reference_translation ≠ "") := by
  constructor
  · intro e pre post hbad
    have hnone : entryPair? e = none := by
      rcases hbad with hno | ⟨fs, rfl, hempty⟩
      · cases e with
        | jobj fs => exact absurd rfl (hno fs)
        | jnull => rfl
        | jbool b => rfl
        | jnum n => rfl
        | jstr s => rfl
        | jarr xs => rfl
      · unfold entryPair?
        rcases hempty with h | h <;> simp [h]
    rw [normalizeEntries_eq_filterMap, normalizeEntries_eq_filterMap,
      List.filterMap_append, List.filterMap_append, List.filterMap_cons, hnone]
  · intro entries p hp
    rw [normalizeEntries_eq_filterMap] at hp
    obtain ⟨e, _, hpe⟩ := List.mem_filterMap.mp hp
    cases e with
    | jobj fs =>
        simp only [entryPair?] at hpe
        by_cases hcond : pyStrip (pyStr (getField fs "swiss_sentence")) ≠ "" ∧
            pyStrip (pyStr (getField fs "reference_translation")) ≠ ""
        · rw [if_pos hcond] at hpe
          injection hpe with hpe
          subst hpe
          exact ⟨by rw [pyStrip_idem]; exact hcond.1,
            by rw [pyStrip_idem]; exact hcond.2⟩
        · rw [if_neg hcond] at hpe
          exact absurd hpe (by simp)
    | jnull => exact absurd hpe (by simp [entryPair?])
    | jbool b => exact absurd hpe (by simp [entryPair?])
    | jnum n => exact absurd hpe (by simp [entryPair?])
    | jstr s => exact absurd hpe (by simp [entryPair?])
    | jarr xs => exact absurd hpe (by simp [entryPair?])

/-- C7 (witness): concrete instances — a non-object entry and an
empty-after-strip entry are discarded; a kept pair has non-empty stripped
fields. -/
theorem claim_C7_witness :
    normalizeEntries [.jnum 3,
        .jobj [("swiss_sentence", .jstr "Hoi"), ("reference_translation", .jstr "Hi")]] =
      normalizeEntries
        [.jobj [("swiss_sentence", .jstr "Hoi"), ("reference_translation", .jstr "Hi")]] ∧
    normalizeEntries [.jobj [("swiss_sentence", .jstr "  "),
        ("reference_translation", .jstr "Hi")]] = normalizeEntries [] ∧
    (pyStrip (⟨"Hoi", "Hi"⟩ : SentencePair).swiss_sentence ≠ "" ∧
      pyStrip (⟨"Hoi", "Hi"⟩ : SentencePair).reference_translation ≠ "") := by
  refine ⟨claim_C7.1 (.jnum 3) []
      [.jobj [("swiss_sentence", .jstr "Hoi"), ("reference_translation", .jstr "Hi")]]
      (Or.inl (fun fs h => by cases h)), ?_, ?_⟩
  · exact claim_C7.1
      (.jobj [("swiss_sentence", .jstr "  "), ("reference_translation", .jstr "Hi")])
      [] [] (Or.inr ⟨_, rfl, Or.inl (by decide)⟩)
  · exact claim_C7.2
      [.jobj [("swiss_sentence", .jstr "Hoi"), ("reference_translation", .jstr "Hi")]]
      ⟨"Hoi", "Hi"⟩ (by decide)

/-- C9: every quantized sample `int(0.3 * sin(...) * 32767)` has absolute
value at most `0.3 * 32767 < 2 ^ 15`, so the conversion to a 2-byte
little-endian signed integer is always in range and never overflows. -/
theorem claim_C9 :
    ∀ i : Nat,
      |(placeholderQuantized i : ℝ)| ≤ 0.3 * 32767 ∧
      (0.3 * 32767 : ℝ) < 2 ^ 15 ∧
      -(2 ^ 15) ≤ placeholderQuantized i ∧ placeholderQuantized i < 2 ^ 15 := by
  intro i
  have h1 : |(placeholderQuantized i : ℝ)| ≤ 0.3 * 32767 := by
    unfold placeholderQuantized
    calc |(pyTrunc (placeholderSample i * 32767) : ℝ)| ≤
          |placeholderSample i * 32767| := pyTrunc_abs_le _
      _ = |placeholderSample i| * 32767 := by
          rw [abs_mul]
          norm_num
      _ ≤ 0.3 * 32767 := by nlinarith [placeholderSample_abs_le i]
  have habs : |placeholderQuantized i| < 32768 := by
    have h2 : |(placeholderQuantized i : ℝ)| < 32768 :=
      lt_of_le_of_lt h1 (by norm_num)
    rw [← Int.cast_abs] at h2
    exact_mod_cast h2
  obtain ⟨hlo, hhi⟩ := abs_lt.mp habs
  exact ⟨h1, by norm_num, by omega, by omega⟩

/-- C10: an entry whose `swiss_sentence` or `reference_translation` is a
non-string JSON scalar (number, boolean, or null) is not discarded: the value
is coerced with `str` before the emptiness check, `null` is stored as the
string `"None"`, and a number is stored as its decimal string. -/
theorem claim_C10 :
    (∀ (rest : List JVal) (v w : JVal), nonStringScalar v → nonStringScalar w →
        normalizeEntries
            (.jobj [("swiss_sentence", v), ("reference_translation", w)] :: rest) =
          ⟨pyStr v, pyStr w⟩ :: normalizeEntries rest) ∧
    pyStr .jnull = "None" ∧
    (∀ n : Int, pyStr (.jnum n) = intDec n) ∧
    pyStr (.jnum 42) = "42" := by
  refine ⟨?_, rfl, fun n => rfl, by decide⟩
  intro rest v w hv hw
  obtain ⟨hsv, hnev⟩ := scalar_strip v hv
  obtain ⟨hsw, hnew⟩ := scalar_strip w hw
  have hg1 : getField [("swiss_sentence", v), ("reference_translation", w)]
      "swiss_sentence" = v := by
    simp [getField, List.find?_cons]
  have hg2 : getField [("swiss_sentence", v), ("reference_translation", w)]
      "reference_translation" = w := by
    simp [getField, List.find?_cons]
  show (let ss := pyStrip (pyStr (getField
      [("swiss_sentence", v), ("reference_translation", w)] "swiss_sentence"))
    let rt := pyStrip (pyStr (getField
      [("swiss_sentence", v), ("reference_translation", w)] "reference_translation"))
    if ss ≠ "" ∧ rt ≠ "" then (⟨ss, rt⟩ : SentencePair) :: normalizeEntries rest
    else normalizeEntries rest) = ⟨pyStr v, pyStr w⟩ :: normalizeEntries rest
  simp only [hg1, hg2, hsv, hsw]
  rw [if_pos ⟨hnev, hnew⟩]

/-- C10 (witness): a null field is kept as `"None"` and a numeric field as its
decimal string. -/
theorem claim_C10_witness :
    normalizeEntries
        [.jobj [("swiss_sentence", .jnull), ("reference_translation", .jnum 42)]] =
      [⟨"None", "42"⟩] := by
  have h := claim_C10.1 [] .jnull (.jnum 42) (Or.inl rfl) (Or.inr (Or.inr ⟨42, rfl⟩))
  rw [h]
  decide

/-- C5 (counterexample): the claim that the tone contains exactly
`round(duration * 22050)` samples is false at text length 5: the exact product
is `15435`, but the binary64 value of `0.7 * 22050` is just below it and
`int(...)` truncates to `15434`. -/
theorem claim_C5_counterexample :
    total_frames 5 = 15434 ∧ claimedSampleCount 5 = 15435 ∧
    (total_frames 5 : Int) ≠ claimedSampleCount 5 := by
  have h2 : claimedSampleCount 5 = 15435 := by
    rw [claimed_eq_exact]
    decide
  exact ⟨total_frames_5, h2, by rw [total_frames_5, h2]; decide⟩

/-- C5 (amended): the sample count is `int(duration * 22050)` evaluated in
binary64, which is `round(duration * 22050)` or exactly one less; the claim's
endpoint examples hold (length 0 → 11025 samples, length 1000 → 77175), while
length 5 yields 15434, one less than the claimed round value. -/
theorem claim_C5 :
    (∀ n : Nat, claimedSampleCount n - 1 ≤ (total_frames n : Int) ∧
        (total_frames n : Int) ≤ claimedSampleCount n) ∧
    total_frames 0 = 11025 ∧ total_frames 1000 = 77175 ∧
    total_frames 5 + 1 = 15435 :=
  ⟨total_frames_bracket, total_frames_0, total_frames_1000, by rw [total_frames_5]⟩

end SwissGerman
